import Mathlib

/-!
Shallow embedding of the Student Management System (`src/main.cpp`) and proofs
of the specified properties of its core: the registry (`StudentManagement`),
the text codec (CSV export/load), and the report projection.

Conventions of the embedding:
* `std::vector` becomes `List`; the owning collections keep insertion order.
* The `Undergraduate`/`Postgraduate` class hierarchy, which differs only in the
  label returned by `getType()`, becomes the enumeration `StudentKind`.
* Operations that print an error and return become functions producing an
  `OpResult` code together with the (possibly unchanged) registry state.
* File contents are modelled as `String`s; `std::getline` splitting is
  modelled character-exactly on `List Char`.
-/

set_option maxRecDepth 8000

/-- The two concrete subclasses of `Student` in the source differ only in the
string returned by `getType()`; they are modelled as an enumeration. -/
inductive StudentKind
  | undergraduate
  | postgraduate
deriving DecidableEq, Repr

/-- `getType()` of the two derived classes (main.cpp lines 173-175, 185-187). -/
def StudentKind.label : StudentKind → String
  | .undergraduate => "Undergraduate"
  | .postgraduate => "Postgraduate"

/-- The `Student` record (main.cpp lines 137-164): name, id, and the list of
enrolled course codes. -/
structure Student where
  name : String
  studentID : String
  kind : StudentKind
  enrolledCourses : List String
deriving DecidableEq, Repr

/-- `Student::addCourse` (main.cpp lines 152-155): append the course code
unless it is already present. -/
def Student.addCourse (s : Student) (courseCode : String) : Student :=
  if courseCode ∈ s.enrolledCourses then s
  else { s with enrolledCourses := s.enrolledCourses ++ [courseCode] }

/-- `Student::removeCourse` (main.cpp lines 158-160): erase-remove of every
occurrence of the course code. -/
def Student.removeCourse (s : Student) (courseCode : String) : Student :=
  { s with enrolledCourses := s.enrolledCourses.filter (fun c => c != courseCode) }

/-- The `Course` record (main.cpp lines 193-216). -/
structure Course where
  courseName : String
  courseCode : String
  enrolledStudentIDs : List String
deriving DecidableEq, Repr

/-- `Course::addStudent` (main.cpp lines 207-210): append the student id unless
it is already present. -/
def Course.addStudent (c : Course) (studentID : String) : Course :=
  if studentID ∈ c.enrolledStudentIDs then c
  else { c with enrolledStudentIDs := c.enrolledStudentIDs ++ [studentID] }

/-- `Course::removeStudent` (main.cpp lines 213-215): erase-remove of every
occurrence of the student id. -/
def Course.removeStudent (c : Course) (studentID : String) : Course :=
  { c with enrolledStudentIDs := c.enrolledStudentIDs.filter (fun i => i != studentID) }

/-- Outcome codes of the registry operations. In the source each failure is a
distinct printed message followed by an early `return`; the success path falls
through to the mutation. -/
inductive OpResult
  | ok
  | duplicateKey
  | notFound
  | invalidArgument
  | alreadyEnrolled
deriving DecidableEq, Repr

/-- The registry `StudentManagement` (main.cpp lines 221-224): the owning
collections of students and courses. -/
structure StudentManagement where
  students : List Student
  courses : List Course
deriving DecidableEq, Repr

/-- `findStudentIndex` (main.cpp lines 227-233) returns the first index whose
student id matches, `-1` when absent; modelled as the first matching element. -/
def StudentManagement.findStudent (m : StudentManagement) (studentID : String) : Option Student :=
  m.students.find? (fun s => s.studentID == studentID)

/-- `findCourseIndex` (main.cpp lines 236-242), modelled like `findStudent`. -/
def StudentManagement.findCourse (m : StudentManagement) (courseCode : String) : Option Course :=
  m.courses.find? (fun c => c.courseCode == courseCode)

/-- `students[sIdx]->...` after a successful `findStudentIndex`: apply `f` to
the first student whose id matches (all later ones are untouched). -/
def updateStudent (l : List Student) (studentID : String) (f : Student → Student) : List Student :=
  match l with
  | [] => []
  | s :: rest =>
    if s.studentID == studentID then f s :: rest
    else s :: updateStudent rest studentID f

/-- `courses[cIdx]....` after a successful `findCourseIndex`. -/
def updateCourse (l : List Course) (courseCode : String) (f : Course → Course) : List Course :=
  match l with
  | [] => []
  | c :: rest =>
    if c.courseCode == courseCode then f c :: rest
    else c :: updateCourse rest courseCode f

/-- `StudentManagement::addStudent` (main.cpp lines 254-269): the duplicate-id
check comes first; then the type string selects the subclass to construct; an
unrecognized type is rejected. -/
def StudentManagement.addStudent (m : StudentManagement) (name studentID ty : String) :
    OpResult × StudentManagement :=
  if (m.findStudent studentID).isSome then (.duplicateKey, m)
  else if ty = "Undergraduate" then
    (.ok, { m with students := m.students ++ [⟨name, studentID, .undergraduate, []⟩] })
  else if ty = "Postgraduate" then
    (.ok, { m with students := m.students ++ [⟨name, studentID, .postgraduate, []⟩] })
  else (.invalidArgument, m)

/-- `StudentManagement::removeStudent` (main.cpp lines 271-282): when the id is
present, every course's roster is purged of the id and the student at the found
index is erased. -/
def StudentManagement.removeStudent (m : StudentManagement) (studentID : String) :
    OpResult × StudentManagement :=
  if (m.findStudent studentID).isSome then
    (.ok, { students := m.students.eraseP (fun s => s.studentID == studentID),
            courses := m.courses.map (fun c => c.removeStudent studentID) })
  else (.notFound, m)

/-- `StudentManagement::addCourse` (main.cpp lines 325-332). -/
def StudentManagement.addCourse (m : StudentManagement) (courseName courseCode : String) :
    OpResult × StudentManagement :=
  if (m.findCourse courseCode).isSome then (.duplicateKey, m)
  else (.ok, { m with courses := m.courses ++ [⟨courseName, courseCode, []⟩] })

/-- `StudentManagement::removeCourse` (main.cpp lines 334-345): when the code is
present, every student's enrollment list is purged of the code and the course at
the found index is erased. -/
def StudentManagement.removeCourse (m : StudentManagement) (courseCode : String) :
    OpResult × StudentManagement :=
  if (m.findCourse courseCode).isSome then
    (.ok, { students := m.students.map (fun s => s.removeCourse courseCode),
            courses := m.courses.eraseP (fun c => c.courseCode == courseCode) })
  else (.notFound, m)

/-- `StudentManagement::enrollStudentInCourse` (main.cpp lines 358-378): student
lookup, course lookup, already-enrolled check on the student's list, then both
sides of the link are inserted. -/
def StudentManagement.enrollStudentInCourse (m : StudentManagement)
    (studentID courseCode : String) : OpResult × StudentManagement :=
  match m.findStudent studentID with
  | none => (.notFound, m)
  | some st =>
    match m.findCourse courseCode with
    | none => (.notFound, m)
    | some _ =>
      if courseCode ∈ st.enrolledCourses then (.alreadyEnrolled, m)
      else
        (.ok, { students := updateStudent m.students studentID (fun s => s.addCourse courseCode),
                courses := updateCourse m.courses courseCode (fun c => c.addStudent studentID) })

/-- `StudentManagement::removeStudentFromCourse` (main.cpp lines 380-390): both
keys must be present; then both sides of the link are erased. -/
def StudentManagement.removeStudentFromCourse (m : StudentManagement)
    (studentID courseCode : String) : OpResult × StudentManagement :=
  if (m.findStudent studentID).isNone || (m.findCourse courseCode).isNone then (.notFound, m)
  else
    (.ok, { students := updateStudent m.students studentID (fun s => s.removeCourse courseCode),
            courses := updateCourse m.courses courseCode (fun c => c.removeStudent studentID) })

/-- `string::find(keyword) != npos`: substring containment on the characters. -/
def strContains (hay needle : String) : Bool :=
  decide (needle.data <:+: hay.data)

/-- The per-student branch of `searchStudent` (main.cpp lines 296-317): a
student is printed when the name or id contains the keyword, or otherwise when
some enrolled course code contains it (inner loop with `break`). -/
def studentMatchLoop (keyword : String) : List Student → List Student
  | [] => []
  | s :: rest =>
    if strContains s.name keyword || strContains s.studentID keyword then
      s :: studentMatchLoop keyword rest
    else if s.enrolledCourses.any (fun c => strContains c keyword) then
      s :: studentMatchLoop keyword rest
    else
      studentMatchLoop keyword rest

/-- `StudentManagement::searchStudent` (main.cpp lines 293-320), as the sequence
of students it prints, in collection order. -/
def StudentManagement.searchStudent (m : StudentManagement) (keyword : String) : List Student :=
  studentMatchLoop keyword m.students

/-- One row of the course report (main.cpp line 419). -/
def reportLine (s : Student) : String :=
  s.studentID ++ "," ++ s.name ++ "," ++ s.kind.label

/-- The roster loop of `generateReportForCourse` (main.cpp lines 415-423): each
id in the roster is looked up via `findStudentIndex` and produces a row only
when the student is found. -/
def courseReportRows (m : StudentManagement) : List String → List String
  | [] => []
  | sid :: rest =>
    match m.findStudent sid with
    | some st => reportLine st :: courseReportRows m rest
    | none => courseReportRows m rest

/-- `StudentManagement::generateReportForCourse` (main.cpp lines 396-426):
`none` when the course code is absent (no file produced); otherwise the full
text written to the report file. -/
def StudentManagement.generateReportForCourse (m : StudentManagement) (courseCode : String) :
    Option String :=
  match m.findCourse courseCode with
  | none => none
  | some c =>
    some ("StudentID,Name,Type\n"
      ++ String.join ((courseReportRows m c.enrolledStudentIDs).map (fun l => l ++ "\n")))

/-! ### Basic lemmas about the lookup helpers -/

theorem findStudent_isSome_iff (m : StudentManagement) (sid : String) :
    (m.findStudent sid).isSome ↔ ∃ s ∈ m.students, s.studentID = sid := by
  simp [StudentManagement.findStudent, List.find?_isSome]

theorem findCourse_isSome_iff (m : StudentManagement) (code : String) :
    (m.findCourse code).isSome ↔ ∃ c ∈ m.courses, c.courseCode = code := by
  simp [StudentManagement.findCourse, List.find?_isSome]

theorem findStudent_eq_some (m : StudentManagement) (sid : String) (st : Student)
    (h : m.findStudent sid = some st) : st ∈ m.students ∧ st.studentID = sid := by
  have h1 := List.mem_of_find?_eq_some h
  have h2 := List.find?_some h
  simp only [beq_iff_eq] at h2
  exact ⟨h1, h2⟩

/-! ### C3: duplicate insert is rejected and leaves the collection unchanged -/

/-- C3: for every registry state, a call to `addStudent` whose student id is
already present in the collection fails with `DuplicateKey` and returns the
state unchanged (no record added, no record modified). -/
theorem addStudent_duplicate_unchanged (m : StudentManagement) (n sid ty : String)
    (h : ∃ s ∈ m.students, s.studentID = sid) :
    m.addStudent n sid ty = (.duplicateKey, m) := by
  have hs : (m.findStudent sid).isSome := (findStudent_isSome_iff m sid).mpr h
  simp [StudentManagement.addStudent, hs]

/-- C3 witness: adding a second student with id `S001` is rejected and the
state is unchanged. -/
theorem addStudent_duplicate_unchanged_witness :
    (∃ s ∈ (⟨[⟨"Alice", "S001", .undergraduate, []⟩], []⟩ : StudentManagement).students,
      s.studentID = "S001") ∧
    (⟨[⟨"Alice", "S001", .undergraduate, []⟩], []⟩ : StudentManagement).addStudent
        "Bob" "S001" "Undergraduate"
      = (.duplicateKey, ⟨[⟨"Alice", "S001", .undergraduate, []⟩], []⟩) :=
  ⟨by decide, addStudent_duplicate_unchanged _ "Bob" "S001" "Undergraduate" (by decide)⟩

/-! ### C9: the duplicate-id check precedes the kind check -/

/-- C9: with an unrecognized kind string, `addStudent` reports `DuplicateKey`
when the id is already present (the duplicate check runs first) and
`InvalidArgument` when it is not; in both failure cases the state is returned
unchanged. -/
theorem addStudent_error_precedence (m : StudentManagement) (n sid ty : String)
    (hty1 : ty ≠ "Undergraduate") (hty2 : ty ≠ "Postgraduate") :
    ((∃ s ∈ m.students, s.studentID = sid) → m.addStudent n sid ty = (.duplicateKey, m)) ∧
    ((¬ ∃ s ∈ m.students, s.studentID = sid) → m.addStudent n sid ty = (.invalidArgument, m)) := by
  constructor
  · intro h
    have hs : (m.findStudent sid).isSome := (findStudent_isSome_iff m sid).mpr h
    simp [StudentManagement.addStudent, hs]
  · intro h
    have hs : ¬ (m.findStudent sid).isSome := fun hc => h ((findStudent_isSome_iff m sid).mp hc)
    simp [StudentManagement.addStudent, hs, hty1, hty2]

/-- C9 witness: with kind string `Alien`, a duplicate id yields `DuplicateKey`
and a fresh id yields `InvalidArgument`, both leaving the state unchanged. -/
theorem addStudent_error_precedence_witness :
    ("Alien" : String) ≠ "Undergraduate" ∧ ("Alien" : String) ≠ "Postgraduate" ∧
    (⟨[⟨"Alice", "S001", .undergraduate, []⟩], []⟩ : StudentManagement).addStudent
        "Bob" "S001" "Alien"
      = (.duplicateKey, ⟨[⟨"Alice", "S001", .undergraduate, []⟩], []⟩) ∧
    (⟨[⟨"Alice", "S001", .undergraduate, []⟩], []⟩ : StudentManagement).addStudent
        "Bob" "S002" "Alien"
      = (.invalidArgument, ⟨[⟨"Alice", "S001", .undergraduate, []⟩], []⟩) :=
  ⟨by decide, by decide,
    (addStudent_error_precedence _ "Bob" "S001" "Alien" (by decide) (by decide)).1 (by decide),
    (addStudent_error_precedence _ "Bob" "S002" "Alien" (by decide) (by decide)).2 (by decide)⟩

/-! ### C7: search yields exactly the matching students, in collection order -/

/-- The predicate the spec describes: name, id, or some enrolled course code
contains the keyword as a case-sensitive substring. -/
def matchesKeyword (kw : String) (s : Student) : Bool :=
  strContains s.name kw || strContains s.studentID kw
    || s.enrolledCourses.any (fun c => strContains c kw)

theorem studentMatchLoop_eq_filter (kw : String) (l : List Student) :
    studentMatchLoop kw l = l.filter (matchesKeyword kw) := by
  induction l with
  | nil => rfl
  | cons s rest ih =>
    by_cases h1 : (strContains s.name kw || strContains s.studentID kw) = true
    · have hm : matchesKeyword kw s = true := by
        simp [matchesKeyword] at h1 ⊢
        tauto
      simp [studentMatchLoop, h1, ih, List.filter_cons, hm]
    · by_cases h2 : s.enrolledCourses.any (fun c => strContains c kw) = true
      · have hm : matchesKeyword kw s = true := by
          simp [matchesKeyword] at h2 ⊢
          tauto
        simp [studentMatchLoop, h1, h2, ih, List.filter_cons, hm]
      · have hm : ¬ matchesKeyword kw s = true := by
          simp [matchesKeyword] at h1 h2 ⊢
          tauto
        simp [studentMatchLoop, h1, h2, ih, List.filter_cons, hm]

/-- C7: for every registry state and keyword, `searchStudent` yields exactly
the students whose name, id, or some enrolled course code contains the keyword
as a case-sensitive substring, in collection order; when nothing matches the
result is the empty sequence (and that is the only way it is empty). -/
theorem searchStudent_spec (m : StudentManagement) (kw : String) :
    m.searchStudent kw = m.students.filter (matchesKeyword kw) ∧
    (m.searchStudent kw = [] ↔ ∀ s ∈ m.students, ¬ matchesKeyword kw s = true) := by
  refine ⟨studentMatchLoop_eq_filter kw m.students, ?_⟩
  rw [StudentManagement.searchStudent, studentMatchLoop_eq_filter]
  simp [List.filter_eq_nil_iff]

/-! ### C8: course report content -/

theorem courseReportRows_eq_filterMap (m : StudentManagement) (ids : List String) :
    courseReportRows m ids = ids.filterMap (fun sid => (m.findStudent sid).map reportLine) := by
  induction ids with
  | nil => rfl
  | cons sid rest ih =>
    cases h : m.findStudent sid <;> simp [courseReportRows, h, ih, List.filterMap_cons]

/-- C8: a report for an absent course code is refused (no file content is
produced); for a present code the file is the header `StudentID,Name,Type`
followed by one `id,name,type` line for each roster entry that resolves to a
student via the registry, in stored roster order. -/
theorem generateReportForCourse_spec (m : StudentManagement) (code : String) :
    m.generateReportForCourse code
      = (m.findCourse code).map (fun c => "StudentID,Name,Type\n"
          ++ String.join ((c.enrolledStudentIDs.filterMap
                (fun sid => (m.findStudent sid).map reportLine)).map (fun l => l ++ "\n"))) ∧
    (m.generateReportForCourse code = none ↔ m.findCourse code = none) := by
  constructor
  · cases h : m.findCourse code <;>
      simp [StudentManagement.generateReportForCourse, h, courseReportRows_eq_filterMap]
  · cases h : m.findCourse code <;> simp [StudentManagement.generateReportForCourse, h]

/-! ### Helper lemmas for first-match update and erase under unique keys -/

theorem Student.addCourse_studentID (s : Student) (code : String) :
    (s.addCourse code).studentID = s.studentID := by
  unfold Student.addCourse; split <;> rfl

theorem Student.addCourse_name (s : Student) (code : String) :
    (s.addCourse code).name = s.name := by
  unfold Student.addCourse; split <;> rfl

theorem Student.addCourse_kind (s : Student) (code : String) :
    (s.addCourse code).kind = s.kind := by
  unfold Student.addCourse; split <;> rfl

theorem Student.removeCourse_studentID (s : Student) (code : String) :
    (s.removeCourse code).studentID = s.studentID := rfl

theorem Course.addStudent_courseCode (c : Course) (sid : String) :
    (c.addStudent sid).courseCode = c.courseCode := by
  unfold Course.addStudent; split <;> rfl

theorem Course.removeStudent_courseCode (c : Course) (sid : String) :
    (c.removeStudent sid).courseCode = c.courseCode := rfl

theorem Student.addCourse_of_not_mem (s : Student) (code : String)
    (h : code ∉ s.enrolledCourses) :
    s.addCourse code = { s with enrolledCourses := s.enrolledCourses ++ [code] } := by
  unfold Student.addCourse
  rw [if_neg h]

theorem Course.addStudent_of_not_mem (c : Course) (sid : String)
    (h : sid ∉ c.enrolledStudentIDs) :
    c.addStudent sid = { c with enrolledStudentIDs := c.enrolledStudentIDs ++ [sid] } := by
  unfold Course.addStudent
  rw [if_neg h]

theorem updateStudent_eq_map (l : List Student) (sid : String) (f : Student → Student)
    (h : (l.map Student.studentID).Nodup) :
    updateStudent l sid f = l.map (fun s => if s.studentID = sid then f s else s) := by
  induction l with
  | nil => rfl
  | cons a rest ih =>
    simp only [List.map_cons, List.nodup_cons] at h
    by_cases ha : a.studentID = sid
    · have hrest : rest.map (fun s => if s.studentID = sid then f s else s) = rest := by
        have : ∀ s ∈ rest, (if s.studentID = sid then f s else s) = s := by
          intro s hs
          rw [if_neg]
          intro hcontra
          exact h.1 (ha ▸ hcontra ▸ List.mem_map_of_mem Student.studentID hs)
        calc rest.map (fun s => if s.studentID = sid then f s else s)
            = rest.map id := List.map_congr_left this
          _ = rest := List.map_id rest
      simp [updateStudent, ha, hrest]
    · have hbeq : (a.studentID == sid) = false := by simp [ha]
      simp [updateStudent, hbeq, ha, ih h.2]

theorem updateCourse_eq_map (l : List Course) (code : String) (f : Course → Course)
    (h : (l.map Course.courseCode).Nodup) :
    updateCourse l code f = l.map (fun c => if c.courseCode = code then f c else c) := by
  induction l with
  | nil => rfl
  | cons a rest ih =>
    simp only [List.map_cons, List.nodup_cons] at h
    by_cases ha : a.courseCode = code
    · have hrest : rest.map (fun c => if c.courseCode = code then f c else c) = rest := by
        have : ∀ c ∈ rest, (if c.courseCode = code then f c else c) = c := by
          intro c hc
          rw [if_neg]
          intro hcontra
          exact h.1 (ha ▸ hcontra ▸ List.mem_map_of_mem Course.courseCode hc)
        calc rest.map (fun c => if c.courseCode = code then f c else c)
            = rest.map id := List.map_congr_left this
          _ = rest := List.map_id rest
      simp [updateCourse, ha, hrest]
    · have hbeq : (a.courseCode == code) = false := by simp [ha]
      simp [updateCourse, hbeq, ha, ih h.2]

theorem eraseP_student_eq_filter (l : List Student) (sid : String)
    (h : (l.map Student.studentID).Nodup) :
    l.eraseP (fun s => s.studentID == sid) = l.filter (fun s => s.studentID != sid) := by
  induction l with
  | nil => rfl
  | cons a rest ih =>
    simp only [List.map_cons, List.nodup_cons] at h
    by_cases ha : a.studentID = sid
    · have hrest : rest.filter (fun s => s.studentID != sid) = rest := by
        rw [List.filter_eq_self]
        intro s hs
        simp only [bne_iff_ne, ne_eq, decide_eq_true_eq]
        intro hcontra
        exact h.1 (ha ▸ hcontra ▸ List.mem_map_of_mem Student.studentID hs)
      simp [List.eraseP_cons, List.filter_cons, ha, hrest]
    · simp [List.eraseP_cons, List.filter_cons, ha, ih h.2]

theorem eraseP_course_eq_filter (l : List Course) (code : String)
    (h : (l.map Course.courseCode).Nodup) :
    l.eraseP (fun c => c.courseCode == code) = l.filter (fun c => c.courseCode != code) := by
  induction l with
  | nil => rfl
  | cons a rest ih =>
    simp only [List.map_cons, List.nodup_cons] at h
    by_cases ha : a.courseCode = code
    · have hrest : rest.filter (fun c => c.courseCode != code) = rest := by
        rw [List.filter_eq_self]
        intro c hc
        simp only [bne_iff_ne, ne_eq, decide_eq_true_eq]
        intro hcontra
        exact h.1 (ha ▸ hcontra ▸ List.mem_map_of_mem Course.courseCode hc)
      simp [List.eraseP_cons, List.filter_cons, ha, hrest]
    · simp [List.eraseP_cons, List.filter_cons, ha, ih h.2]

theorem student_eq_of_nodup_ids (l : List Student) (h : (l.map Student.studentID).Nodup)
    (s t : Student) (hs : s ∈ l) (ht : t ∈ l) (hid : s.studentID = t.studentID) : s = t := by
  induction l with
  | nil => cases hs
  | cons a rest ih =>
    simp only [List.map_cons, List.nodup_cons] at h
    rcases List.mem_cons.mp hs with rfl | hs'
    · rcases List.mem_cons.mp ht with rfl | ht'
      · rfl
      · exact absurd (hid ▸ List.mem_map_of_mem Student.studentID ht') h.1
    · rcases List.mem_cons.mp ht with rfl | ht'
      · exact absurd (hid ▸ List.mem_map_of_mem Student.studentID hs') h.1
      · exact ih h.2 hs' ht'

theorem course_eq_of_nodup_codes (l : List Course) (h : (l.map Course.courseCode).Nodup)
    (c d : Course) (hc : c ∈ l) (hd : d ∈ l) (hcode : c.courseCode = d.courseCode) : c = d := by
  induction l with
  | nil => cases hc
  | cons a rest ih =>
    simp only [List.map_cons, List.nodup_cons] at h
    rcases List.mem_cons.mp hc with rfl | hc'
    · rcases List.mem_cons.mp hd with rfl | hd'
      · rfl
      · exact absurd (hcode ▸ List.mem_map_of_mem Course.courseCode hd') h.1
    · rcases List.mem_cons.mp hd with rfl | hd'
      · exact absurd (hcode ▸ List.mem_map_of_mem Course.courseCode hc') h.1
      · exact ih h.2 hc' hd'

theorem findStudent_eq_none_iff (m : StudentManagement) (sid : String) :
    m.findStudent sid = none ↔ ∀ s ∈ m.students, s.studentID ≠ sid := by
  simp [StudentManagement.findStudent, List.find?_eq_none]

theorem findCourse_eq_none_iff (m : StudentManagement) (code : String) :
    m.findCourse code = none ↔ ∀ c ∈ m.courses, c.courseCode ≠ code := by
  simp [StudentManagement.findCourse, List.find?_eq_none]

/-! ### The registry invariant -/

/-- The invariant bundle of §3 of the spec: unique keys, duplicate-free
cross-reference lists, referential symmetry, and no dangling references. -/
def RegInv (m : StudentManagement) : Prop :=
  (m.students.map Student.studentID).Nodup ∧
  (m.courses.map Course.courseCode).Nodup ∧
  (∀ s ∈ m.students, s.enrolledCourses.Nodup) ∧
  (∀ c ∈ m.courses, c.enrolledStudentIDs.Nodup) ∧
  (∀ s ∈ m.students, ∀ c ∈ m.courses,
    (c.courseCode ∈ s.enrolledCourses ↔ s.studentID ∈ c.enrolledStudentIDs)) ∧
  (∀ s ∈ m.students, ∀ code ∈ s.enrolledCourses, ∃ c ∈ m.courses, c.courseCode = code) ∧
  (∀ c ∈ m.courses, ∀ sid ∈ c.enrolledStudentIDs, ∃ s ∈ m.students, s.studentID = sid)

theorem inv_addStudent (m : StudentManagement) (n sid ty : String) (hInv : RegInv m) :
    RegInv (m.addStudent n sid ty).2 := by
  obtain ⟨h1, h2, h3, h4, h5, h6, h7⟩ := hInv
  by_cases hdup : (m.findStudent sid).isSome
  · simpa [StudentManagement.addStudent, hdup] using ⟨h1, h2, h3, h4, h5, h6, h7⟩
  · have hfresh : ∀ s ∈ m.students, s.studentID ≠ sid := by
      rw [← findStudent_eq_none_iff]
      exact Option.not_isSome_iff_eq_none.mp hdup
    have key : ∀ k : StudentKind,
        RegInv { m with students := m.students ++ [⟨n, sid, k, []⟩] } := by
      intro k
      refine ⟨?_, h2, ?_, h4, ?_, ?_, ?_⟩
      · simp only [List.map_append, List.map_cons, List.map_nil]
        rw [List.nodup_append]
        refine ⟨h1, List.nodup_singleton _, ?_⟩
        intro x hx
        simp only [List.mem_singleton]
        obtain ⟨s, hs, rfl⟩ := List.mem_map.mp hx
        simpa using hfresh s hs
      · intro s hs
        rcases List.mem_append.mp hs with hs' | hs'
        · exact h3 s hs'
        · simp only [List.mem_singleton] at hs'
          subst hs'
          exact List.nodup_nil
      · intro s hs c hc
        rcases List.mem_append.mp hs with hs' | hs'
        · exact h5 s hs' c hc
        · simp only [List.mem_singleton] at hs'
          subst hs'
          simp only [List.not_mem_nil, false_iff]
          intro hmem
          obtain ⟨s', hs', hid⟩ := h7 c hc sid hmem
          exact hfresh s' hs' hid
      · intro s hs code hcode
        rcases List.mem_append.mp hs with hs' | hs'
        · exact h6 s hs' code hcode
        · simp only [List.mem_singleton] at hs'
          subst hs'
          cases hcode
      · intro c hc x hx
        obtain ⟨s, hs, hid⟩ := h7 c hc x hx
        exact ⟨s, List.mem_append_left _ hs, hid⟩
    unfold StudentManagement.addStudent
    rw [if_neg hdup]
    by_cases hu : ty = "Undergraduate"
    · simpa [hu] using key .undergraduate
    · by_cases hp : ty = "Postgraduate"
      · simpa [hu, hp] using key .postgraduate
      · simpa [hu, hp] using ⟨h1, h2, h3, h4, h5, h6, h7⟩

theorem inv_addCourse (m : StudentManagement) (n code : String) (hInv : RegInv m) :
    RegInv (m.addCourse n code).2 := by
  obtain ⟨h1, h2, h3, h4, h5, h6, h7⟩ := hInv
  by_cases hdup : (m.findCourse code).isSome
  · simpa [StudentManagement.addCourse, hdup] using ⟨h1, h2, h3, h4, h5, h6, h7⟩
  · have hfresh : ∀ c ∈ m.courses, c.courseCode ≠ code := by
      rw [← findCourse_eq_none_iff]
      exact Option.not_isSome_iff_eq_none.mp hdup
    unfold StudentManagement.addCourse
    rw [if_neg hdup]
    refine ⟨h1, ?_, h3, ?_, ?_, ?_, ?_⟩
    · simp only [List.map_append, List.map_cons, List.map_nil]
      rw [List.nodup_append]
      refine ⟨h2, List.nodup_singleton _, ?_⟩
      intro x hx
      simp only [List.mem_singleton]
      obtain ⟨c, hc, rfl⟩ := List.mem_map.mp hx
      simpa using hfresh c hc
    · intro c hc
      rcases List.mem_append.mp hc with hc' | hc'
      · exact h4 c hc'
      · simp only [List.mem_singleton] at hc'
        subst hc'
        exact List.nodup_nil
    · intro s hs c hc
      rcases List.mem_append.mp hc with hc' | hc'
      · exact h5 s hs c hc'
      · simp only [List.mem_singleton] at hc'
        subst hc'
        simp only [List.not_mem_nil, iff_false]
        intro hmem
        obtain ⟨c', hc', hcode⟩ := h6 s hs code hmem
        exact hfresh c' hc' hcode
    · intro s hs code' hcode'
      obtain ⟨c, hc, hcode⟩ := h6 s hs code' hcode'
      exact ⟨c, List.mem_append_left _ hc, hcode⟩
    · intro c hc x hx
      rcases List.mem_append.mp hc with hc' | hc'
      · exact h7 c hc' x hx
      · simp only [List.mem_singleton] at hc'
        subst hc'
        cases hx

theorem findCourse_eq_some (m : StudentManagement) (code : String) (c : Course)
    (h : m.findCourse code = some c) : c ∈ m.courses ∧ c.courseCode = code := by
  have h1 := List.mem_of_find?_eq_some h
  have h2 := List.find?_some h
  simp only [beq_iff_eq] at h2
  exact ⟨h1, h2⟩

theorem map_studentID_filter (l : List Student) (p : String → Bool) :
    (l.filter (fun s => p s.studentID)).map Student.studentID
      = (l.map Student.studentID).filter p := by
  induction l with
  | nil => rfl
  | cons a rest ih => by_cases h : p a.studentID <;> simp [List.filter_cons, h, ih]

theorem map_courseCode_filter (l : List Course) (p : String → Bool) :
    (l.filter (fun c => p c.courseCode)).map Course.courseCode
      = (l.map Course.courseCode).filter p := by
  induction l with
  | nil => rfl
  | cons a rest ih => by_cases h : p a.courseCode <;> simp [List.filter_cons, h, ih]

theorem inv_removeStudent (m : StudentManagement) (sid : String) (hInv : RegInv m) :
    RegInv (m.removeStudent sid).2 := by
  obtain ⟨h1, h2, h3, h4, h5, h6, h7⟩ := hInv
  by_cases hfound : (m.findStudent sid).isSome
  · unfold StudentManagement.removeStudent
    rw [if_pos hfound]
    rw [eraseP_student_eq_filter _ _ h1]
    refine ⟨?_, ?_, ?_, ?_, ?_, ?_, ?_⟩
    · rw [map_studentID_filter m.students (fun i => i != sid)]
      exact h1.filter _
    · have : (m.courses.map (fun c => c.removeStudent sid)).map Course.courseCode
          = m.courses.map Course.courseCode := by
        rw [List.map_map]
        exact List.map_congr_left (fun c _ => rfl)
      rw [this]
      exact h2
    · intro s hs
      exact h3 s (List.mem_of_mem_filter hs)
    · intro c hc
      obtain ⟨c₀, hc₀, rfl⟩ := List.mem_map.mp hc
      exact (h4 c₀ hc₀).filter _
    · intro s hs c hc
      obtain ⟨hs', hsid⟩ := List.mem_filter.mp hs
      simp only [bne_iff_ne, ne_eq, decide_eq_true_eq] at hsid
      obtain ⟨c₀, hc₀, rfl⟩ := List.mem_map.mp hc
      show c₀.courseCode ∈ s.enrolledCourses ↔
        s.studentID ∈ c₀.enrolledStudentIDs.filter (fun i => i != sid)
      rw [List.mem_filter]
      simp only [bne_iff_ne, ne_eq, decide_eq_true_eq]
      constructor
      · intro hmem
        exact ⟨(h5 s hs' c₀ hc₀).mp hmem, hsid⟩
      · intro ⟨hmem, _⟩
        exact (h5 s hs' c₀ hc₀).mpr hmem
    · intro s hs code hcode
      obtain ⟨c₀, hc₀, hc₀code⟩ := h6 s (List.mem_of_mem_filter hs) code hcode
      exact ⟨c₀.removeStudent sid, List.mem_map_of_mem _ hc₀, hc₀code⟩
    · intro c hc x hx
      obtain ⟨c₀, hc₀, rfl⟩ := List.mem_map.mp hc
      have hx' := List.mem_filter.mp hx
      simp only [bne_iff_ne, ne_eq, decide_eq_true_eq] at hx'
      obtain ⟨s, hsmem, hsid⟩ := h7 c₀ hc₀ x hx'.1
      refine ⟨s, List.mem_filter.mpr ⟨hsmem, ?_⟩, hsid⟩
      simp only [bne_iff_ne, ne_eq, decide_eq_true_eq]
      rw [hsid]
      exact hx'.2
  · unfold StudentManagement.removeStudent
    rw [if_neg hfound]
    exact ⟨h1, h2, h3, h4, h5, h6, h7⟩

theorem inv_removeCourse (m : StudentManagement) (code : String) (hInv : RegInv m) :
    RegInv (m.removeCourse code).2 := by
  obtain ⟨h1, h2, h3, h4, h5, h6, h7⟩ := hInv
  by_cases hfound : (m.findCourse code).isSome
  · unfold StudentManagement.removeCourse
    rw [if_pos hfound]
    rw [eraseP_course_eq_filter _ _ h2]
    refine ⟨?_, ?_, ?_, ?_, ?_, ?_, ?_⟩
    · have : (m.students.map (fun s => s.removeCourse code)).map Student.studentID
          = m.students.map Student.studentID := by
        rw [List.map_map]
        exact List.map_congr_left (fun s _ => rfl)
      rw [this]
      exact h1
    · rw [map_courseCode_filter m.courses (fun i => i != code)]
      exact h2.filter _
    · intro s hs
      obtain ⟨s₀, hs₀, rfl⟩ := List.mem_map.mp hs
      exact (h3 s₀ hs₀).filter _
    · intro c hc
      exact h4 c (List.mem_of_mem_filter hc)
    · intro s hs c hc
      obtain ⟨s₀, hs₀, rfl⟩ := List.mem_map.mp hs
      obtain ⟨hc', hcode⟩ := List.mem_filter.mp hc
      simp only [bne_iff_ne, ne_eq, decide_eq_true_eq] at hcode
      show c.courseCode ∈ s₀.enrolledCourses.filter (fun i => i != code) ↔
        s₀.studentID ∈ c.enrolledStudentIDs
      rw [List.mem_filter]
      simp only [bne_iff_ne, ne_eq, decide_eq_true_eq]
      constructor
      · intro ⟨hmem, _⟩
        exact (h5 s₀ hs₀ c hc').mp hmem
      · intro hmem
        exact ⟨(h5 s₀ hs₀ c hc').mpr hmem, hcode⟩
    · intro s hs code' hcode'
      obtain ⟨s₀, hs₀, rfl⟩ := List.mem_map.mp hs
      have hmem := List.mem_filter.mp hcode'
      simp only [bne_iff_ne, ne_eq, decide_eq_true_eq] at hmem
      obtain ⟨c₀, hc₀, hc₀code⟩ := h6 s₀ hs₀ code' hmem.1
      refine ⟨c₀, List.mem_filter.mpr ⟨hc₀, ?_⟩, hc₀code⟩
      simp only [bne_iff_ne, ne_eq, decide_eq_true_eq]
      rw [hc₀code]
      exact hmem.2
    · intro c hc x hx
      obtain ⟨s, hsmem, hsid⟩ := h7 c (List.mem_of_mem_filter hc) x hx
      exact ⟨s.removeCourse code, List.mem_map_of_mem _ hsmem, hsid⟩
  · unfold StudentManagement.removeCourse
    rw [if_neg hfound]
    exact ⟨h1, h2, h3, h4, h5, h6, h7⟩

theorem inv_enroll_aux (m : StudentManagement) (sid code : String)
    (hInv : RegInv m) (st : Student) (c₀ : Course)
    (hfs : m.findStudent sid = some st) (hfc : m.findCourse code = some c₀)
    (hmem : code ∉ st.enrolledCourses) :
    RegInv ⟨updateStudent m.students sid (fun s => s.addCourse code),
            updateCourse m.courses code (fun c => c.addStudent sid)⟩ := by
  obtain ⟨h1, h2, h3, h4, h5, h6, h7⟩ := hInv
  obtain ⟨hstmem, hstid⟩ := findStudent_eq_some m sid st hfs
  obtain ⟨hcmem, hccode⟩ := findCourse_eq_some m code c₀ hfc
  have hsidroster : sid ∉ c₀.enrolledStudentIDs := by
    intro hcontra
    apply hmem
    have := (h5 st hstmem c₀ hcmem).mpr (by rw [hstid]; exact hcontra)
    rwa [hccode] at this
  have huniq : ∀ s ∈ m.students, s.studentID = sid → s = st := by
    intro s hs hsidEq
    exact student_eq_of_nodup_ids _ h1 s st hs hstmem (by rw [hsidEq, hstid])
  have cuniq : ∀ c ∈ m.courses, c.courseCode = code → c = c₀ := by
    intro c hc hcodeEq
    exact course_eq_of_nodup_codes _ h2 c c₀ hc hcmem (by rw [hcodeEq, hccode])
  have hstAdd : st.addCourse code
      = { st with enrolledCourses := st.enrolledCourses ++ [code] } :=
    Student.addCourse_of_not_mem st code hmem
  have hcAdd : c₀.addStudent sid
      = { c₀ with enrolledStudentIDs := c₀.enrolledStudentIDs ++ [sid] } :=
    Course.addStudent_of_not_mem c₀ sid hsidroster
  have gid : ∀ s : Student,
      (if s.studentID = sid then s.addCourse code else s).studentID = s.studentID := by
    intro s
    split
    · exact Student.addCourse_studentID s code
    · rfl
  have fcode : ∀ c : Course,
      (if c.courseCode = code then c.addStudent sid else c).courseCode = c.courseCode := by
    intro c
    split
    · exact Course.addStudent_courseCode c sid
    · rfl
  rw [updateStudent_eq_map _ _ _ h1, updateCourse_eq_map _ _ _ h2]
  unfold RegInv
  have liftc : ∀ c ∈ m.courses,
      ∃ c' ∈ m.courses.map (fun c => if c.courseCode = code then c.addStudent sid else c),
        c'.courseCode = c.courseCode := by
    intro c hc
    exact ⟨_, List.mem_map_of_mem _ hc, fcode c⟩
  have lifts : ∀ s ∈ m.students,
      ∃ s' ∈ m.students.map (fun s => if s.studentID = sid then s.addCourse code else s),
        s'.studentID = s.studentID := by
    intro s hs
    exact ⟨_, List.mem_map_of_mem _ hs, gid s⟩
  refine ⟨?_, ?_, ?_, ?_, ?_, ?_, ?_⟩
  · rw [List.map_map]
    have hcomp : (Student.studentID ∘ fun s => if s.studentID = sid then s.addCourse code else s)
        = Student.studentID := by
      funext s
      exact gid s
    rw [hcomp]
    exact h1
  · rw [List.map_map]
    have hcomp : (Course.courseCode ∘ fun c => if c.courseCode = code then c.addStudent sid else c)
        = Course.courseCode := by
      funext c
      exact fcode c
    rw [hcomp]
    exact h2
  · intro s' hs'
    obtain ⟨s, hs, rfl⟩ := List.mem_map.mp hs'
    by_cases hsrc : s.studentID = sid
    · obtain rfl := huniq s hs hsrc
      rw [if_pos hsrc, hstAdd]
      show (s.enrolledCourses ++ [code]).Nodup
      rw [List.nodup_append]
      refine ⟨h3 s hs, List.nodup_singleton _, ?_⟩
      intro x hx hx2
      rw [List.mem_singleton] at hx2
      exact hmem (hx2 ▸ hx)
    · rw [if_neg hsrc]
      exact h3 s hs
  · intro c' hc'
    obtain ⟨c, hc, rfl⟩ := List.mem_map.mp hc'
    by_cases hcc : c.courseCode = code
    · obtain rfl := cuniq c hc hcc
      rw [if_pos hcc, hcAdd]
      show (c.enrolledStudentIDs ++ [sid]).Nodup
      rw [List.nodup_append]
      refine ⟨h4 c hc, List.nodup_singleton _, ?_⟩
      intro x hx hx2
      rw [List.mem_singleton] at hx2
      exact hsidroster (hx2 ▸ hx)
    · rw [if_neg hcc]
      exact h4 c hc
  · intro s' hs' c' hc'
    obtain ⟨s, hs, rfl⟩ := List.mem_map.mp hs'
    obtain ⟨c, hc, rfl⟩ := List.mem_map.mp hc'
    by_cases hsrc : s.studentID = sid
    · obtain rfl := huniq s hs hsrc
      by_cases hcc : c.courseCode = code
      · obtain rfl := cuniq c hc hcc
        rw [if_pos hsrc, if_pos hcc, hstAdd, hcAdd]
        show c.courseCode ∈ s.enrolledCourses ++ [code]
          ↔ s.studentID ∈ c.enrolledStudentIDs ++ [sid]
        constructor
        · intro _
          exact List.mem_append_right _ (by rw [List.mem_singleton]; exact hstid)
        · intro _
          exact List.mem_append_right _ (by rw [List.mem_singleton]; exact hccode)
      · rw [if_pos hsrc, if_neg hcc, hstAdd]
        show c.courseCode ∈ s.enrolledCourses ++ [code] ↔ s.studentID ∈ c.enrolledStudentIDs
        have base := h5 s hs c hc
        rw [List.mem_append, List.mem_singleton]
        constructor
        · rintro (h | h)
          · exact base.mp h
          · exact absurd h hcc
        · intro h
          exact Or.inl (base.mpr h)
    · rw [if_neg hsrc]
      by_cases hcc : c.courseCode = code
      · obtain rfl := cuniq c hc hcc
        rw [if_pos hcc, hcAdd]
        show c.courseCode ∈ s.enrolledCourses ↔ s.studentID ∈ c.enrolledStudentIDs ++ [sid]
        have base := h5 s hs c hc
        rw [List.mem_append, List.mem_singleton]
        constructor
        · intro h
          exact Or.inl (base.mp h)
        · rintro (h | h)
          · exact base.mpr h
          · exact absurd h hsrc
      · rw [if_neg hcc]
        exact h5 s hs c hc
  · intro s' hs' code' hcode'
    obtain ⟨s, hs, rfl⟩ := List.mem_map.mp hs'
    by_cases hsrc : s.studentID = sid
    · obtain rfl := huniq s hs hsrc
      rw [if_pos hsrc, hstAdd] at hcode'
      show ∃ c' ∈ _, c'.courseCode = code'
      rcases List.mem_append.mp hcode' with h | h
      · obtain ⟨c, hc, hcc⟩ := h6 s hs code' h
        obtain ⟨c', hc', he⟩ := liftc c hc
        exact ⟨c', hc', by rw [he, hcc]⟩
      · rw [List.mem_singleton] at h
        subst h
        obtain ⟨c', hc', he⟩ := liftc c₀ hcmem
        exact ⟨c', hc', by rw [he, hccode]⟩
    · rw [if_neg hsrc] at hcode'
      obtain ⟨c, hc, hcc⟩ := h6 s hs code' hcode'
      obtain ⟨c', hc', he⟩ := liftc c hc
      exact ⟨c', hc', by rw [he, hcc]⟩
  · intro c' hc' x hx
    obtain ⟨c, hc, rfl⟩ := List.mem_map.mp hc'
    by_cases hcc : c.courseCode = code
    · obtain rfl := cuniq c hc hcc
      rw [if_pos hcc, hcAdd] at hx
      show ∃ s' ∈ _, s'.studentID = x
      rcases List.mem_append.mp hx with h | h
      · obtain ⟨s, hsm, hsid'⟩ := h7 c hc x h
        obtain ⟨s', hs', he⟩ := lifts s hsm
        exact ⟨s', hs', by rw [he, hsid']⟩
      · rw [List.mem_singleton] at h
        subst h
        obtain ⟨s', hs', he⟩ := lifts st hstmem
        exact ⟨s', hs', by rw [he, hstid]⟩
    · rw [if_neg hcc] at hx
      obtain ⟨s, hsm, hsid'⟩ := h7 c hc x hx
      obtain ⟨s', hs', he⟩ := lifts s hsm
      exact ⟨s', hs', by rw [he, hsid']⟩

theorem inv_enroll (m : StudentManagement) (sid code : String) (hInv : RegInv m) :
    RegInv (m.enrollStudentInCourse sid code).2 := by
  unfold StudentManagement.enrollStudentInCourse
  cases hfs : m.findStudent sid with
  | none => exact hInv
  | some st =>
    cases hfc : m.findCourse code with
    | none => exact hInv
    | some c₀ =>
      by_cases hmem : code ∈ st.enrolledCourses
      · simp only [if_pos hmem]
        exact hInv
      · simp only [if_neg hmem]
        exact inv_enroll_aux m sid code ⟨hInv.1, hInv.2.1, hInv.2.2.1, hInv.2.2.2.1,
          hInv.2.2.2.2.1, hInv.2.2.2.2.2.1, hInv.2.2.2.2.2.2⟩ st c₀ hfs hfc hmem

theorem inv_unenroll_aux (m : StudentManagement) (sid code : String) (hInv : RegInv m) :
    RegInv ⟨updateStudent m.students sid (fun s => s.removeCourse code),
            updateCourse m.courses code (fun c => c.removeStudent sid)⟩ := by
  obtain ⟨h1, h2, h3, h4, h5, h6, h7⟩ := hInv
  have gid : ∀ s : Student,
      (if s.studentID = sid then s.removeCourse code else s).studentID = s.studentID := by
    intro s
    split <;> rfl
  have fcode : ∀ c : Course,
      (if c.courseCode = code then c.removeStudent sid else c).courseCode = c.courseCode := by
    intro c
    split <;> rfl
  rw [updateStudent_eq_map _ _ _ h1, updateCourse_eq_map _ _ _ h2]
  unfold RegInv
  have liftc : ∀ c ∈ m.courses,
      ∃ c' ∈ m.courses.map (fun c => if c.courseCode = code then c.removeStudent sid else c),
        c'.courseCode = c.courseCode := by
    intro c hc
    exact ⟨_, List.mem_map_of_mem _ hc, fcode c⟩
  have lifts : ∀ s ∈ m.students,
      ∃ s' ∈ m.students.map (fun s => if s.studentID = sid then s.removeCourse code else s),
        s'.studentID = s.studentID := by
    intro s hs
    exact ⟨_, List.mem_map_of_mem _ hs, gid s⟩
  refine ⟨?_, ?_, ?_, ?_, ?_, ?_, ?_⟩
  · rw [List.map_map]
    have hcomp :
        (Student.studentID ∘ fun s => if s.studentID = sid then s.removeCourse code else s)
          = Student.studentID := by
      funext s
      exact gid s
    rw [hcomp]
    exact h1
  · rw [List.map_map]
    have hcomp :
        (Course.courseCode ∘ fun c => if c.courseCode = code then c.removeStudent sid else c)
          = Course.courseCode := by
      funext c
      exact fcode c
    rw [hcomp]
    exact h2
  · intro s' hs'
    obtain ⟨s, hs, rfl⟩ := List.mem_map.mp hs'
    by_cases hsrc : s.studentID = sid
    · rw [if_pos hsrc]
      exact (h3 s hs).filter _
    · rw [if_neg hsrc]
      exact h3 s hs
  · intro c' hc'
    obtain ⟨c, hc, rfl⟩ := List.mem_map.mp hc'
    by_cases hcc : c.courseCode = code
    · rw [if_pos hcc]
      exact (h4 c hc).filter _
    · rw [if_neg hcc]
      exact h4 c hc
  · intro s' hs' c' hc'
    obtain ⟨s, hs, rfl⟩ := List.mem_map.mp hs'
    obtain ⟨c, hc, rfl⟩ := List.mem_map.mp hc'
    by_cases hsrc : s.studentID = sid
    · by_cases hcc : c.courseCode = code
      · rw [if_pos hsrc, if_pos hcc]
        show c.courseCode ∈ (s.removeCourse code).enrolledCourses
          ↔ s.studentID ∈ (c.removeStudent sid).enrolledStudentIDs
        constructor
        · intro h
          have := List.mem_filter.mp h
          simp only [bne_iff_ne, ne_eq, decide_eq_true_eq] at this
          exact absurd hcc this.2
        · intro h
          have := List.mem_filter.mp h
          simp only [bne_iff_ne, ne_eq, decide_eq_true_eq] at this
          exact absurd hsrc this.2
      · rw [if_pos hsrc, if_neg hcc]
        show c.courseCode ∈ (s.removeCourse code).enrolledCourses
          ↔ s.studentID ∈ c.enrolledStudentIDs
        rw [show (s.removeCourse code).enrolledCourses
            = s.enrolledCourses.filter (fun x => x != code) from rfl, List.mem_filter]
        simp only [bne_iff_ne, ne_eq, decide_eq_true_eq]
        constructor
        · intro ⟨h, _⟩
          exact (h5 s hs c hc).mp h
        · intro h
          exact ⟨(h5 s hs c hc).mpr h, hcc⟩
    · by_cases hcc : c.courseCode = code
      · rw [if_neg hsrc, if_pos hcc]
        show c.courseCode ∈ s.enrolledCourses
          ↔ s.studentID ∈ (c.removeStudent sid).enrolledStudentIDs
        rw [show (c.removeStudent sid).enrolledStudentIDs
            = c.enrolledStudentIDs.filter (fun x => x != sid) from rfl, List.mem_filter]
        simp only [bne_iff_ne, ne_eq, decide_eq_true_eq]
        constructor
        · intro h
          exact ⟨(h5 s hs c hc).mp h, hsrc⟩
        · intro ⟨h, _⟩
          exact (h5 s hs c hc).mpr h
      · rw [if_neg hsrc, if_neg hcc]
        exact h5 s hs c hc
  · intro s' hs' code' hcode'
    obtain ⟨s, hs, rfl⟩ := List.mem_map.mp hs'
    have hsub : code' ∈ s.enrolledCourses := by
      by_cases hsrc : s.studentID = sid
      · rw [if_pos hsrc] at hcode'
        exact List.mem_of_mem_filter hcode'
      · rwa [if_neg hsrc] at hcode'
    obtain ⟨c, hc, hcc⟩ := h6 s hs code' hsub
    obtain ⟨c', hc', he⟩ := liftc c hc
    exact ⟨c', hc', by rw [he, hcc]⟩
  · intro c' hc' x hx
    obtain ⟨c, hc, rfl⟩ := List.mem_map.mp hc'
    have hsub : x ∈ c.enrolledStudentIDs := by
      by_cases hcc : c.courseCode = code
      · rw [if_pos hcc] at hx
        exact List.mem_of_mem_filter hx
      · rwa [if_neg hcc] at hx
    obtain ⟨s, hsm, hsid'⟩ := h7 c hc x hsub
    obtain ⟨s', hs', he⟩ := lifts s hsm
    exact ⟨s', hs', by rw [he, hsid']⟩

theorem inv_unenroll (m : StudentManagement) (sid code : String) (hInv : RegInv m) :
    RegInv (m.removeStudentFromCourse sid code).2 := by
  unfold StudentManagement.removeStudentFromCourse
  cases hguard : (m.findStudent sid).isNone || (m.findCourse code).isNone with
  | true => simpa using hInv
  | false =>
    simp only [Bool.false_eq_true, if_false]
    exact inv_unenroll_aux m sid code hInv

instance (m : StudentManagement) : Decidable (RegInv m) := by
  unfold RegInv
  infer_instance

/-! ### Reachable registry states -/

/-- The mutating registry operations, as driven from the CLI menu. -/
inductive Op
  | addStudent (name studentID ty : String)
  | addCourse (courseName courseCode : String)
  | enroll (studentID courseCode : String)
  | unenroll (studentID courseCode : String)
  | removeStudent (studentID : String)
  | removeCourse (courseCode : String)
deriving DecidableEq, Repr

def applyOp (m : StudentManagement) : Op → StudentManagement
  | .addStudent n sid ty => (m.addStudent n sid ty).2
  | .addCourse n code => (m.addCourse n code).2
  | .enroll sid code => (m.enrollStudentInCourse sid code).2
  | .unenroll sid code => (m.removeStudentFromCourse sid code).2
  | .removeStudent sid => (m.removeStudent sid).2
  | .removeCourse code => (m.removeCourse code).2

/-- The state of a fresh `StudentManagement` object. -/
def emptyRegistry : StudentManagement := ⟨[], []⟩

/-- The registry state after an operation sequence starting from scratch. -/
def runOps (ops : List Op) : StudentManagement := ops.foldl applyOp emptyRegistry

theorem inv_empty : RegInv emptyRegistry := by decide

theorem inv_applyOp (m : StudentManagement) (op : Op) (h : RegInv m) :
    RegInv (applyOp m op) := by
  cases op with
  | addStudent n sid ty => exact inv_addStudent m n sid ty h
  | addCourse n code => exact inv_addCourse m n code h
  | enroll sid code => exact inv_enroll m sid code h
  | unenroll sid code => exact inv_unenroll m sid code h
  | removeStudent sid => exact inv_removeStudent m sid h
  | removeCourse code => exact inv_removeCourse m code h

theorem inv_foldl (ops : List Op) (m : StudentManagement) (h : RegInv m) :
    RegInv (ops.foldl applyOp m) := by
  induction ops generalizing m with
  | nil => exact h
  | cons op rest ih => exact ih _ (inv_applyOp m op h)

theorem inv_runOps (ops : List Op) : RegInv (runOps ops) :=
  inv_foldl ops emptyRegistry inv_empty

/-! ### C1: referential symmetry in every reachable state -/

/-- C1: in every registry state reachable from the empty registry by any
sequence of registry operations — including, in particular, any sequence of
enroll, unenroll, removeStudent and removeCourse — a course code appears in a
student's `enrolledCourses` list iff that student's id appears in that course's
`enrolledStudentIDs` list. -/
theorem referential_symmetry_reachable (ops : List Op) :
    ∀ s ∈ (runOps ops).students, ∀ c ∈ (runOps ops).courses,
      (c.courseCode ∈ s.enrolledCourses ↔ s.studentID ∈ c.enrolledStudentIDs) :=
  (inv_runOps ops).2.2.2.2.1

/-- An operation sequence used to instantiate the reachability theorems. -/
def opsDemo : List Op :=
  [.addStudent "Alice Johnson" "S001" "Undergraduate",
   .addCourse "Data Structures" "CSE102",
   .enroll "S001" "CSE102"]

/-- C1 witness: the symmetry holds for the concrete student and course produced
by a concrete add/add/enroll sequence. -/
theorem referential_symmetry_reachable_witness :
    (⟨"Alice Johnson", "S001", .undergraduate, ["CSE102"]⟩ : Student)
        ∈ (runOps opsDemo).students ∧
    (⟨"Data Structures", "CSE102", ["S001"]⟩ : Course) ∈ (runOps opsDemo).courses ∧
    ("CSE102" ∈ (⟨"Alice Johnson", "S001", .undergraduate, ["CSE102"]⟩ : Student).enrolledCourses
      ↔ "S001" ∈ (⟨"Data Structures", "CSE102", ["S001"]⟩ : Course).enrolledStudentIDs) :=
  ⟨by decide, by decide,
    referential_symmetry_reachable opsDemo
      ⟨"Alice Johnson", "S001", .undergraduate, ["CSE102"]⟩ (by decide)
      ⟨"Data Structures", "CSE102", ["S001"]⟩ (by decide)⟩

/-! ### C4: cascade on delete -/

/-- C4: removing a present student succeeds and rewrites every course roster to
the old roster with exactly the occurrences of that student's id removed (so it
is removed from all rosters that contained it and from no other entry), leaving
course names/codes intact, and afterwards no roster contains the id; removing a
present course likewise strips its code from every student's enrollment list
and nothing else, and afterwards no transcript contains the code. -/
theorem cascade_on_delete (m : StudentManagement) (sid code : String) :
    ((m.findStudent sid).isSome →
      (m.removeStudent sid).1 = OpResult.ok ∧
      List.Forall₂ (fun cOld cNew =>
          cNew.courseName = cOld.courseName ∧ cNew.courseCode = cOld.courseCode ∧
          ∀ x, (x ∈ cNew.enrolledStudentIDs ↔ x ∈ cOld.enrolledStudentIDs ∧ x ≠ sid))
        m.courses (m.removeStudent sid).2.courses ∧
      (∀ c ∈ (m.removeStudent sid).2.courses, sid ∉ c.enrolledStudentIDs)) ∧
    ((m.findCourse code).isSome →
      (m.removeCourse code).1 = OpResult.ok ∧
      List.Forall₂ (fun sOld sNew =>
          sNew.name = sOld.name ∧ sNew.studentID = sOld.studentID ∧
          sNew.kind = sOld.kind ∧
          ∀ x, (x ∈ sNew.enrolledCourses ↔ x ∈ sOld.enrolledCourses ∧ x ≠ code))
        m.students (m.removeCourse code).2.students ∧
      (∀ s ∈ (m.removeCourse code).2.students, code ∉ s.enrolledCourses)) := by
  constructor
  · intro hs
    have hstate : m.removeStudent sid
        = (.ok, ⟨m.students.eraseP (fun s => s.studentID == sid),
                 m.courses.map (fun c => c.removeStudent sid)⟩) := by
      unfold StudentManagement.removeStudent
      rw [if_pos hs]
    rw [hstate]
    refine ⟨rfl, ?_, ?_⟩
    · show List.Forall₂ _ m.courses (m.courses.map (fun c => c.removeStudent sid))
      rw [List.forall₂_map_right_iff, List.forall₂_same]
      intro c _
      refine ⟨rfl, rfl, ?_⟩
      intro x
      show x ∈ c.enrolledStudentIDs.filter (fun i => i != sid) ↔ _
      rw [List.mem_filter]
      simp [bne_iff_ne]
    · intro c hc
      obtain ⟨c₀, _, rfl⟩ := List.mem_map.mp hc
      intro hmem
      have hx := List.mem_filter.mp hmem
      simp [bne_iff_ne] at hx
  · intro hc
    have hstate : m.removeCourse code
        = (.ok, ⟨m.students.map (fun s => s.removeCourse code),
                 m.courses.eraseP (fun c => c.courseCode == code)⟩) := by
      unfold StudentManagement.removeCourse
      rw [if_pos hc]
    rw [hstate]
    refine ⟨rfl, ?_, ?_⟩
    · show List.Forall₂ _ m.students (m.students.map (fun s => s.removeCourse code))
      rw [List.forall₂_map_right_iff, List.forall₂_same]
      intro s _
      refine ⟨rfl, rfl, rfl, ?_⟩
      intro x
      show x ∈ s.enrolledCourses.filter (fun i => i != code) ↔ _
      rw [List.mem_filter]
      simp [bne_iff_ne]
    · intro s hsm
      obtain ⟨s₀, _, rfl⟩ := List.mem_map.mp hsm
      intro hmem
      have hx := List.mem_filter.mp hmem
      simp [bne_iff_ne] at hx

/-- A concrete linked registry used to instantiate the deletion and round-trip
theorems. -/
def sampleRegistry : StudentManagement :=
  ⟨[⟨"Alice Johnson", "S001", .undergraduate, ["CSE102"]⟩],
   [⟨"Data Structures", "CSE102", ["S001"]⟩]⟩

/-- C4 witness: deleting student `S001` (resp. course `CSE102`) from a linked
registry succeeds and afterwards no roster (resp. transcript) mentions it. -/
theorem cascade_on_delete_witness :
    ((sampleRegistry.removeStudent "S001").1 = OpResult.ok ∧
      ∀ c ∈ (sampleRegistry.removeStudent "S001").2.courses,
        "S001" ∉ c.enrolledStudentIDs) ∧
    ((sampleRegistry.removeCourse "CSE102").1 = OpResult.ok ∧
      ∀ s ∈ (sampleRegistry.removeCourse "CSE102").2.students,
        "CSE102" ∉ s.enrolledCourses) :=
  ⟨⟨((cascade_on_delete sampleRegistry "S001" "CSE102").1 (by decide)).1,
    ((cascade_on_delete sampleRegistry "S001" "CSE102").1 (by decide)).2.2⟩,
   ⟨((cascade_on_delete sampleRegistry "S001" "CSE102").2 (by decide)).1,
    ((cascade_on_delete sampleRegistry "S001" "CSE102").2 (by decide)).2.2⟩⟩

/-! ### C5: enroll semantics -/

theorem find_student_map (l : List Student) (g : Student → Student)
    (hg : ∀ s, (g s).studentID = s.studentID) (sid : String) :
    (l.map g).find? (fun s => s.studentID == sid)
      = (l.find? (fun s => s.studentID == sid)).map g := by
  induction l with
  | nil => rfl
  | cons a rest ih =>
    by_cases h : a.studentID = sid
    · simp [List.find?_cons, hg a, h]
    · simp [List.find?_cons, hg a, h, ih]

theorem find_course_map (l : List Course) (g : Course → Course)
    (hg : ∀ c, (g c).courseCode = c.courseCode) (code : String) :
    (l.map g).find? (fun c => c.courseCode == code)
      = (l.find? (fun c => c.courseCode == code)).map g := by
  induction l with
  | nil => rfl
  | cons a rest ih =>
    by_cases h : a.courseCode = code
    · simp [List.find?_cons, hg a, h]
    · simp [List.find?_cons, hg a, h, ih]

/-- C5: under the registry invariant, `enrollStudentInCourse` reports
`NotFound` and leaves the state unchanged when either key is absent; reports
`AlreadyEnrolled` and leaves the state unchanged when the pair is already
linked; and otherwise succeeds, appending the course code to the student's list
and the student id to the course's roster. Enrolling the same valid pair again
then reports `AlreadyEnrolled`, changes nothing, and the roster contains the
student id exactly once. -/
theorem enroll_semantics (m : StudentManagement) (sid code : String) (hInv : RegInv m) :
    ((m.findStudent sid = none ∨ m.findCourse code = none) →
      m.enrollStudentInCourse sid code = (.notFound, m)) ∧
    (∀ st c₀, m.findStudent sid = some st → m.findCourse code = some c₀ →
      code ∈ st.enrolledCourses →
      m.enrollStudentInCourse sid code = (.alreadyEnrolled, m)) ∧
    (∀ st c₀, m.findStudent sid = some st → m.findCourse code = some c₀ →
      code ∉ st.enrolledCourses →
      m.enrollStudentInCourse sid code
        = (.ok, ⟨updateStudent m.students sid (fun s => s.addCourse code),
                 updateCourse m.courses code (fun c => c.addStudent sid)⟩) ∧
      (m.enrollStudentInCourse sid code).2.findStudent sid
        = some { st with enrolledCourses := st.enrolledCourses ++ [code] } ∧
      (m.enrollStudentInCourse sid code).2.findCourse code
        = some { c₀ with enrolledStudentIDs := c₀.enrolledStudentIDs ++ [sid] } ∧
      (m.enrollStudentInCourse sid code).2.enrollStudentInCourse sid code
        = (.alreadyEnrolled, (m.enrollStudentInCourse sid code).2) ∧
      (∀ c', (m.enrollStudentInCourse sid code).2.findCourse code = some c' →
        c'.enrolledStudentIDs.count sid = 1)) := by
  obtain ⟨h1, h2, h3, h4, h5, h6, h7⟩ := hInv
  refine ⟨?_, ?_, ?_⟩
  · intro habs
    unfold StudentManagement.enrollStudentInCourse
    cases hfs : m.findStudent sid with
    | none => rfl
    | some st =>
      cases hfc : m.findCourse code with
      | none => rfl
      | some c₀ =>
        rcases habs with h | h
        · rw [hfs] at h
          cases h
        · rw [hfc] at h
          cases h
  · intro st c₀ hfs hfc hmem
    simp [StudentManagement.enrollStudentInCourse, hfs, hfc, hmem]
  · intro st c₀ hfs hfc hmem
    obtain ⟨hstmem, hstid⟩ := findStudent_eq_some m sid st hfs
    obtain ⟨hcmem, hccode⟩ := findCourse_eq_some m code c₀ hfc
    have hsidroster : sid ∉ c₀.enrolledStudentIDs := by
      intro hcontra
      apply hmem
      have := (h5 st hstmem c₀ hcmem).mpr (by rw [hstid]; exact hcontra)
      rwa [hccode] at this
    have hres : m.enrollStudentInCourse sid code
        = (.ok, ⟨updateStudent m.students sid (fun s => s.addCourse code),
                 updateCourse m.courses code (fun c => c.addStudent sid)⟩) := by
      simp [StudentManagement.enrollStudentInCourse, hfs, hfc, hmem]
    have gid : ∀ s : Student,
        (if s.studentID = sid then s.addCourse code else s).studentID = s.studentID := by
      intro s
      split
      · exact Student.addCourse_studentID s code
      · rfl
    have fcode : ∀ c : Course,
        (if c.courseCode = code then c.addStudent sid else c).courseCode = c.courseCode := by
      intro c
      split
      · exact Course.addStudent_courseCode c sid
      · rfl
    have hstAdd : st.addCourse code
        = { st with enrolledCourses := st.enrolledCourses ++ [code] } :=
      Student.addCourse_of_not_mem st code hmem
    have hcAdd : c₀.addStudent sid
        = { c₀ with enrolledStudentIDs := c₀.enrolledStudentIDs ++ [sid] } :=
      Course.addStudent_of_not_mem c₀ sid hsidroster
    have hfindS : (m.enrollStudentInCourse sid code).2.findStudent sid
        = some { st with enrolledCourses := st.enrolledCourses ++ [code] } := by
      rw [hres]
      show (updateStudent m.students sid (fun s => s.addCourse code)).find?
          (fun s => s.studentID == sid) = _
      rw [updateStudent_eq_map _ _ _ h1, find_student_map _ _ gid]
      show (m.findStudent sid).map _ = _
      rw [hfs]
      show some (if st.studentID = sid then st.addCourse code else st) = _
      rw [if_pos hstid, hstAdd]
    have hfindC : (m.enrollStudentInCourse sid code).2.findCourse code
        = some { c₀ with enrolledStudentIDs := c₀.enrolledStudentIDs ++ [sid] } := by
      rw [hres]
      show (updateCourse m.courses code (fun c => c.addStudent sid)).find?
          (fun c => c.courseCode == code) = _
      rw [updateCourse_eq_map _ _ _ h2, find_course_map _ _ fcode]
      show (m.findCourse code).map _ = _
      rw [hfc]
      show some (if c₀.courseCode = code then c₀.addStudent sid else c₀) = _
      rw [if_pos hccode, hcAdd]
    have already : ∀ (m2 : StudentManagement) (st2 : Student),
        m2.findStudent sid = some st2 → (m2.findCourse code).isSome →
        code ∈ st2.enrolledCourses →
        m2.enrollStudentInCourse sid code = (.alreadyEnrolled, m2) := by
      intro m2 st2 hfs2 hfc2 hmem2
      cases hfc3 : m2.findCourse code with
      | none => rw [hfc3] at hfc2; cases hfc2
      | some c2 => simp [StudentManagement.enrollStudentInCourse, hfs2, hfc3, hmem2]
    refine ⟨hres, hfindS, hfindC, ?_, ?_⟩
    · exact already _ _ hfindS (by rw [hfindC]; rfl)
        (List.mem_append_right _ (List.mem_singleton.mpr rfl))
    · intro c' hc'
      rw [hfindC] at hc'
      cases hc'
      show (c₀.enrolledStudentIDs ++ [sid]).count sid = 1
      rw [List.count_append]
      rw [List.count_eq_zero.mpr hsidroster]
      simp

/-- An unlinked registry with one student and one course, used to instantiate
the enrollment theorem. -/
def enrollDemo : StudentManagement :=
  ⟨[⟨"Alice Johnson", "S001", .undergraduate, []⟩],
   [⟨"Data Structures", "CSE102", []⟩]⟩

/-- C5 witness: enrolling `(S001, CSE102)` twice from a fresh link makes the
second call report `AlreadyEnrolled`, leaves the state unchanged, and the
roster of `CSE102` holds exactly one entry for `S001`. -/
theorem enroll_semantics_witness :
    (enrollDemo.enrollStudentInCourse "S001" "CSE102").2.enrollStudentInCourse "S001" "CSE102"
      = (.alreadyEnrolled, (enrollDemo.enrollStudentInCourse "S001" "CSE102").2) ∧
    (∀ c', (enrollDemo.enrollStudentInCourse "S001" "CSE102").2.findCourse "CSE102" = some c' →
      c'.enrolledStudentIDs.count "S001" = 1) := by
  have h := (enroll_semantics enrollDemo "S001" "CSE102" (by decide)).2.2
    ⟨"Alice Johnson", "S001", .undergraduate, []⟩ ⟨"Data Structures", "CSE102", []⟩
    (by decide) (by decide) (by decide)
  exact ⟨h.2.2.2.1, h.2.2.2.2⟩

/-! ### The text codec (main.cpp lines 471-599)

File contents are `String`s; the `std::getline` loops are modelled
character-exactly on the underlying `List Char`. -/

/-- Split at every occurrence of a delimiter character. The result has one
piece more than there are delimiters, so it is never empty. -/
def splitOnChar (c : Char) : List Char → List (List Char)
  | [] => [[]]
  | x :: xs =>
    if x = c then [] :: splitOnChar c xs
    else
      match splitOnChar c xs with
      | [] => [[x]]
      | y :: ys => (x :: y) :: ys

/-- Repeated `std::getline` with delimiter `c` until failure: `getline` fails
exactly when the stream is already at end of input, so a trailing delimiter
does not produce a final empty field. -/
def getlineSplit (c : Char) (l : List Char) : List (List Char) :=
  let ps := splitOnChar c l
  if ps.getLast? = some [] then ps.dropLast else ps

/-- One `std::getline(ss, field, c)` on the rest of a stream: the field up to
the first delimiter, and the characters after it when the delimiter was found
(`none` means the delimiter was not found and the stream is exhausted). -/
def breakAt (c : Char) : List Char → List Char × Option (List Char)
  | [] => ([], none)
  | x :: xs =>
    if x = c then ([], some xs)
    else
      let p := breakAt c xs
      (x :: p.1, p.2)

/-- The lines read by `while (getline(file, line))`. -/
def fileLines (s : String) : List String :=
  (getlineSplit '\n' s.data).map (fun l => ⟨l⟩)

/-- The course codes read by `while (getline(courseStream, courseCode, ';'))`
(main.cpp lines 549-555) and the student ids of lines 583-589. -/
def splitSemis (s : String) : List String :=
  (getlineSplit ';' s.data).map (fun l => ⟨l⟩)

/-- Field extraction of one student row (main.cpp lines 538-543): three
`getline(ss, _, ',')` calls and a final `getline(ss, coursesStr)`; a failed
`getline` leaves the field empty. -/
def parseStudentFields (l : List Char) : String × String × String × String :=
  match breakAt ',' l with
  | (f1, none) => (⟨f1⟩, "", "", "")
  | (f1, some r1) =>
    match breakAt ',' r1 with
    | (f2, none) => (⟨f1⟩, ⟨f2⟩, "", "")
    | (f2, some r2) =>
      match breakAt ',' r2 with
      | (f3, none) => (⟨f1⟩, ⟨f2⟩, ⟨f3⟩, "")
      | (f3, some r3) => (⟨f1⟩, ⟨f2⟩, ⟨f3⟩, ⟨r3⟩)

def parseStudentLine (line : String) : String × String × String × String :=
  parseStudentFields line.data

/-- Field extraction of one course row (main.cpp lines 573-577). -/
def parseCourseFields (l : List Char) : String × String × String :=
  match breakAt ',' l with
  | (f1, none) => (⟨f1⟩, "", "")
  | (f1, some r1) =>
    match breakAt ',' r1 with
    | (f2, none) => (⟨f1⟩, ⟨f2⟩, "")
    | (f2, some r2) => (⟨f1⟩, ⟨f2⟩, ⟨r2⟩)

def parseCourseLine (line : String) : String × String × String :=
  parseCourseFields line.data

/-- The export loops write list elements separated by `;` with no trailing
separator (main.cpp lines 487-491, 512-516). -/
def joinSemi : List (List Char) → List Char
  | [] => []
  | [a] => a
  | a :: b :: rest => a ++ ';' :: joinSemi (b :: rest)

/-- Each written line is terminated by a newline. -/
def joinLines (ls : List (List Char)) : List Char :=
  (ls.map (fun l => l ++ ['\n'])).flatten

/-- One row of `exportStudentsToCSV` (main.cpp lines 481-492). -/
def studentLineChars (s : Student) : List Char :=
  s.studentID.data ++ (',' :: (s.name.data ++ (',' :: (s.kind.label.data
    ++ (',' :: joinSemi (s.enrolledCourses.map String.data))))))

/-- One row of `exportCoursesToCSV` (main.cpp lines 508-517). -/
def courseLineChars (c : Course) : List Char :=
  c.courseCode.data ++ (',' :: (c.courseName.data
    ++ (',' :: joinSemi (c.enrolledStudentIDs.map String.data))))

/-- `StudentManagement::exportStudentsToCSV` (main.cpp lines 471-496): the
full text written to `Students/students.csv`. -/
def exportStudentsToCSV (m : StudentManagement) : String :=
  ⟨joinLines ("StudentID,Name,Type,EnrolledCourses".data :: m.students.map studentLineChars)⟩

/-- `StudentManagement::exportCoursesToCSV` (main.cpp lines 498-521): the full
text written to `Courses/courses.csv`. -/
def exportCoursesToCSV (m : StudentManagement) : String :=
  ⟨joinLines ("CourseCode,CourseName,EnrolledStudents".data :: m.courses.map courseLineChars)⟩

/-- The body of the row loop of `loadStudentsFromCSV` (main.cpp lines 536-557):
skip empty lines, parse the four fields, call `addStudent` (which rejects
duplicates), then add each `;`-separated course code to the student found by
`findStudentIndex` (no cross-check against the course collection). -/
def loadStudentLine (m : StudentManagement) (line : String) : StudentManagement :=
  if line.data = [] then m
  else
    match parseStudentLine line with
    | (studentID, name, ty, coursesStr) =>
      let m1 := (m.addStudent name studentID ty).2
      if coursesStr.data = [] then m1
      else
        (splitSemis coursesStr).foldl
          (fun acc code =>
            { acc with
              students := updateStudent acc.students studentID (fun s => s.addCourse code) })
          m1

/-- `StudentManagement::loadStudentsFromCSV` (main.cpp lines 527-559): `none`
models a missing file (silently ignored); the header line is skipped. -/
def loadStudentsFromCSV (m : StudentManagement) (file : Option String) : StudentManagement :=
  match file with
  | none => m
  | some content => ((fileLines content).drop 1).foldl loadStudentLine m

/-- The body of the row loop of `loadCoursesFromCSV` (main.cpp lines 571-591). -/
def loadCourseLine (m : StudentManagement) (line : String) : StudentManagement :=
  if line.data = [] then m
  else
    match parseCourseLine line with
    | (courseCode, courseName, studentsStr) =>
      let m1 := (m.addCourse courseName courseCode).2
      if studentsStr.data = [] then m1
      else
        (splitSemis studentsStr).foldl
          (fun acc sid =>
            { acc with
              courses := updateCourse acc.courses courseCode (fun c => c.addStudent sid) })
          m1

/-- `StudentManagement::loadCoursesFromCSV` (main.cpp lines 562-593). -/
def loadCoursesFromCSV (m : StudentManagement) (file : Option String) : StudentManagement :=
  match file with
  | none => m
  | some content => ((fileLines content).drop 1).foldl loadCourseLine m

/-- `StudentManagement::loadData` (main.cpp lines 596-599): students first,
then courses. -/
def loadData (m : StudentManagement) (studentsFile coursesFile : Option String) :
    StudentManagement :=
  loadCoursesFromCSV (loadStudentsFromCSV m studentsFile) coursesFile

/-! ### Splitting lemmas for the codec -/

theorem splitOnChar_not_mem (c : Char) (l : List Char) (h : c ∉ l) :
    splitOnChar c l = [l] := by
  induction l with
  | nil => rfl
  | cons x xs ih =>
    have hx : x ≠ c := fun he => h (he ▸ List.mem_cons_self x xs)
    have hxs : c ∉ xs := fun hm => h (List.mem_cons_of_mem x hm)
    simp only [splitOnChar, if_neg hx, ih hxs]

theorem splitOnChar_append (c : Char) (a b : List Char) (h : c ∉ a) :
    splitOnChar c (a ++ c :: b) = a :: splitOnChar c b := by
  induction a with
  | nil => simp [splitOnChar]
  | cons x xs ih =>
    have hx : x ≠ c := fun he => h (he ▸ List.mem_cons_self x xs)
    have hxs : c ∉ xs := fun hm => h (List.mem_cons_of_mem x hm)
    have hstep : splitOnChar c ((x :: xs) ++ c :: b)
        = match splitOnChar c (xs ++ c :: b) with
          | [] => [[x]]
          | y :: ys => (x :: y) :: ys := by
      show splitOnChar c (x :: (xs ++ c :: b)) = _
      simp only [splitOnChar, if_neg hx]
    rw [hstep, ih hxs]

theorem splitOnChar_joinLines (c : Char) (ls : List (List Char))
    (h : ∀ l ∈ ls, c ∉ l) :
    splitOnChar c ((ls.map (fun l => l ++ [c])).flatten) = ls ++ [[]] := by
  induction ls with
  | nil => rfl
  | cons l rest ih =>
    have hflat : ((l :: rest).map (fun l => l ++ [c])).flatten
        = l ++ c :: ((rest.map (fun l => l ++ [c])).flatten) := by
      simp
    rw [hflat, splitOnChar_append c l _ (h l (List.mem_cons_self l rest)),
      ih (fun x hx => h x (List.mem_cons_of_mem l hx))]
    rfl

theorem getlineSplit_joinLines (c : Char) (ls : List (List Char))
    (h : ∀ l ∈ ls, c ∉ l) :
    getlineSplit c ((ls.map (fun l => l ++ [c])).flatten) = ls := by
  simp only [getlineSplit]
  rw [splitOnChar_joinLines c ls h, List.getLast?_concat]
  rw [if_pos rfl, List.dropLast_concat]

theorem joinSemi_not_mem (x : Char) (hx : x ≠ ';') (ls : List (List Char))
    (h : ∀ l ∈ ls, x ∉ l) : x ∉ joinSemi ls := by
  induction ls with
  | nil => simp [joinSemi]
  | cons a rest ih =>
    cases rest with
    | nil => exact h a (List.mem_cons_self a [])
    | cons b t =>
      show x ∉ a ++ ';' :: joinSemi (b :: t)
      intro hmem
      rcases List.mem_append.mp hmem with hm | hm
      · exact h a (List.mem_cons_self a _) hm
      · rcases List.mem_cons.mp hm with hm | hm
        · exact hx hm
        · exact ih (fun l hl => h l (List.mem_cons_of_mem a hl)) hm

theorem splitOnChar_joinSemi (ls : List (List Char)) (hne : ls ≠ [])
    (h : ∀ l ∈ ls, ';' ∉ l) : splitOnChar ';' (joinSemi ls) = ls := by
  induction ls with
  | nil => cases hne rfl
  | cons a rest ih =>
    cases rest with
    | nil => exact splitOnChar_not_mem ';' a (h a (List.mem_cons_self a []))
    | cons b t =>
      show splitOnChar ';' (a ++ ';' :: joinSemi (b :: t)) = a :: b :: t
      rw [splitOnChar_append ';' a _ (h a (List.mem_cons_self a _)),
        ih (List.cons_ne_nil b t) (fun l hl => h l (List.mem_cons_of_mem a hl))]

theorem joinSemi_ne_nil (ls : List (List Char)) (hne : ls ≠ [])
    (h : ∀ l ∈ ls, l ≠ []) : joinSemi ls ≠ [] := by
  cases ls with
  | nil => cases hne rfl
  | cons a rest =>
    cases rest with
    | nil => exact h a (List.mem_cons_self a [])
    | cons b t =>
      show a ++ ';' :: joinSemi (b :: t) ≠ []
      simp

theorem getLast?_ne_some_nil (ls : List (List Char)) (h : ∀ l ∈ ls, l ≠ []) :
    ls.getLast? ≠ some [] := by
  intro hc
  have hmem : ([] : List Char) ∈ ls := by
    induction ls with
    | nil => cases hc
    | cons a rest ih =>
      cases rest with
      | nil =>
        simp only [List.getLast?_singleton, Option.some.injEq] at hc
        simp [hc]
      | cons b t =>
        rw [List.getLast?_cons_cons] at hc
        exact List.mem_cons_of_mem a (ih (fun l hl => h l (List.mem_cons_of_mem a hl)) hc)
  exact h [] hmem rfl

theorem getlineSplit_joinSemi (ls : List (List Char)) (hne : ls ≠ [])
    (hsem : ∀ l ∈ ls, ';' ∉ l) (hnil : ∀ l ∈ ls, l ≠ []) :
    getlineSplit ';' (joinSemi ls) = ls := by
  simp only [getlineSplit]
  rw [splitOnChar_joinSemi ls hne hsem]
  rw [if_neg (getLast?_ne_some_nil ls hnil)]

theorem breakAt_append (c : Char) (a b : List Char) (h : c ∉ a) :
    breakAt c (a ++ c :: b) = (a, some b) := by
  induction a with
  | nil => simp [breakAt]
  | cons x xs ih =>
    have hx : x ≠ c := fun he => h (he ▸ List.mem_cons_self x xs)
    have hxs : c ∉ xs := fun hm => h (List.mem_cons_of_mem x hm)
    simp [breakAt, hx, ih hxs]

/-! ### Well-formed registries for the round-trip theorems -/

/-- A field round-trips through the delimited format only when it contains none
of the three delimiter characters. -/
def delimFree (s : String) : Prop := ',' ∉ s.data ∧ ';' ∉ s.data ∧ '\n' ∉ s.data

instance (s : String) : Decidable (delimFree s) := by
  unfold delimFree
  infer_instance

def WFStudent (s : Student) : Prop :=
  delimFree s.name ∧ delimFree s.studentID ∧ s.enrolledCourses.Nodup ∧
  ∀ code ∈ s.enrolledCourses, delimFree code ∧ code ≠ ""

instance (s : Student) : Decidable (WFStudent s) := by
  unfold WFStudent
  infer_instance

def WFCourse (c : Course) : Prop :=
  delimFree c.courseName ∧ delimFree c.courseCode ∧ c.enrolledStudentIDs.Nodup ∧
  ∀ sid ∈ c.enrolledStudentIDs, delimFree sid ∧ sid ≠ ""

instance (c : Course) : Decidable (WFCourse c) := by
  unfold WFCourse
  infer_instance

/-- The hypotheses under which the text codec is lossless: unique keys,
delimiter-free fields, duplicate-free reference lists with nonempty entries. -/
def WFRegistry (m : StudentManagement) : Prop :=
  (m.students.map Student.studentID).Nodup ∧
  (m.courses.map Course.courseCode).Nodup ∧
  (∀ s ∈ m.students, WFStudent s) ∧
  (∀ c ∈ m.courses, WFCourse c)

instance (m : StudentManagement) : Decidable (WFRegistry m) := by
  unfold WFRegistry
  infer_instance

theorem string_data_ne_nil (s : String) (h : s ≠ "") : s.data ≠ [] := by
  intro hd
  apply h
  cases s with
  | mk data =>
    simp only at hd
    subst hd
    rfl

/-! ### Parsing an exported row recovers the fields -/

theorem parseStudentFields_row (s : Student)
    (hid : ',' ∉ s.studentID.data) (hname : ',' ∉ s.name.data) :
    parseStudentFields (studentLineChars s)
      = (s.studentID, s.name, s.kind.label,
         (⟨joinSemi (s.enrolledCourses.map String.data)⟩ : String)) := by
  have hlabel : ',' ∉ s.kind.label.data := by cases s.kind <;> decide
  have h1 : breakAt ',' (studentLineChars s)
      = (s.studentID.data, some (s.name.data ++ (',' :: (s.kind.label.data
          ++ (',' :: joinSemi (s.enrolledCourses.map String.data)))))) :=
    breakAt_append ',' s.studentID.data
      (s.name.data ++ (',' :: (s.kind.label.data
        ++ (',' :: joinSemi (s.enrolledCourses.map String.data))))) hid
  have h2 : breakAt ',' (s.name.data ++ (',' :: (s.kind.label.data
        ++ (',' :: joinSemi (s.enrolledCourses.map String.data)))))
      = (s.name.data, some (s.kind.label.data
          ++ (',' :: joinSemi (s.enrolledCourses.map String.data)))) :=
    breakAt_append ',' s.name.data
      (s.kind.label.data ++ (',' :: joinSemi (s.enrolledCourses.map String.data))) hname
  have h3 : breakAt ','
        (s.kind.label.data ++ (',' :: joinSemi (s.enrolledCourses.map String.data)))
      = (s.kind.label.data, some (joinSemi (s.enrolledCourses.map String.data))) :=
    breakAt_append ',' s.kind.label.data
      (joinSemi (s.enrolledCourses.map String.data)) hlabel
  simp only [parseStudentFields, h1, h2, h3]

theorem parseCourseFields_row (c : Course)
    (hcode : ',' ∉ c.courseCode.data) (hname : ',' ∉ c.courseName.data) :
    parseCourseFields (courseLineChars c)
      = (c.courseCode, c.courseName,
         (⟨joinSemi (c.enrolledStudentIDs.map String.data)⟩ : String)) := by
  have h1 : breakAt ',' (courseLineChars c)
      = (c.courseCode.data, some (c.courseName.data
          ++ (',' :: joinSemi (c.enrolledStudentIDs.map String.data)))) :=
    breakAt_append ',' c.courseCode.data
      (c.courseName.data ++ (',' :: joinSemi (c.enrolledStudentIDs.map String.data))) hcode
  have h2 : breakAt ','
        (c.courseName.data ++ (',' :: joinSemi (c.enrolledStudentIDs.map String.data)))
      = (c.courseName.data, some (joinSemi (c.enrolledStudentIDs.map String.data))) :=
    breakAt_append ',' c.courseName.data
      (joinSemi (c.enrolledStudentIDs.map String.data)) hname
  simp only [parseCourseFields, h1, h2]

/-! ### Exported rows contain no newline -/

theorem not_mem_studentLineChars (x : Char) (hxc : x ≠ ',') (hxs : x ≠ ';') (s : Student)
    (hid : x ∉ s.studentID.data) (hname : x ∉ s.name.data)
    (hlabel : x ∉ s.kind.label.data)
    (hcodes : ∀ code ∈ s.enrolledCourses, x ∉ code.data) :
    x ∉ studentLineChars s := by
  have hj : x ∉ joinSemi (s.enrolledCourses.map String.data) :=
    joinSemi_not_mem x hxs _ (fun l hl => by
      obtain ⟨code, hcode, rfl⟩ := List.mem_map.mp hl
      exact hcodes code hcode)
  intro hmem
  simp only [studentLineChars, List.mem_append, List.mem_cons] at hmem
  tauto

theorem not_mem_courseLineChars (x : Char) (hxc : x ≠ ',') (hxs : x ≠ ';') (c : Course)
    (hcode : x ∉ c.courseCode.data) (hname : x ∉ c.courseName.data)
    (hsids : ∀ sid ∈ c.enrolledStudentIDs, x ∉ sid.data) :
    x ∉ courseLineChars c := by
  have hj : x ∉ joinSemi (c.enrolledStudentIDs.map String.data) :=
    joinSemi_not_mem x hxs _ (fun l hl => by
      obtain ⟨sid, hsid, rfl⟩ := List.mem_map.mp hl
      exact hsids sid hsid)
  intro hmem
  simp only [courseLineChars, List.mem_append, List.mem_cons] at hmem
  tauto

/-! ### Loading the exported rows rebuilds the collections -/

theorem addStudent_fresh (m : StudentManagement) (n sid : String) (k : StudentKind)
    (hfresh : ∀ p ∈ m.students, p.studentID ≠ sid) :
    (m.addStudent n sid k.label).2
      = { m with students := m.students ++ [⟨n, sid, k, []⟩] } := by
  have hnone : ¬ ((m.findStudent sid).isSome = true) := by
    rw [findStudent_isSome_iff]
    rintro ⟨s, hs, hidEq⟩
    exact hfresh s hs hidEq
  unfold StudentManagement.addStudent
  rw [if_neg hnone]
  cases k with
  | undergraduate =>
    rw [if_pos (show StudentKind.label .undergraduate = "Undergraduate" from rfl)]
  | postgraduate =>
    rw [if_neg (show ¬ StudentKind.label .postgraduate = "Undergraduate" by decide),
      if_pos (show StudentKind.label .postgraduate = "Postgraduate" from rfl)]

theorem addCourse_fresh (m : StudentManagement) (n code : String)
    (hfresh : ∀ c ∈ m.courses, c.courseCode ≠ code) :
    (m.addCourse n code).2 = { m with courses := m.courses ++ [⟨n, code, []⟩] } := by
  have hnone : ¬ ((m.findCourse code).isSome = true) := by
    rw [findCourse_isSome_iff]
    rintro ⟨c, hc, hcodeEq⟩
    exact hfresh c hc hcodeEq
  unfold StudentManagement.addCourse
  rw [if_neg hnone]

theorem foldl_update_students (codes : List String) (m : StudentManagement)
    (g : List Student → String → List Student) :
    codes.foldl (fun acc code => { acc with students := g acc.students code }) m
      = { m with students := codes.foldl g m.students } := by
  induction codes generalizing m with
  | nil => rfl
  | cons code rest ih => rw [List.foldl_cons, List.foldl_cons, ih]

theorem foldl_update_courses (sids : List String) (m : StudentManagement)
    (g : List Course → String → List Course) :
    sids.foldl (fun acc sid => { acc with courses := g acc.courses sid }) m
      = { m with courses := sids.foldl g m.courses } := by
  induction sids generalizing m with
  | nil => rfl
  | cons sid rest ih => rw [List.foldl_cons, List.foldl_cons, ih]

theorem updateStudent_append_singleton (pre : List Student) (st : Student) (sid : String)
    (hsid : st.studentID = sid) (f : Student → Student)
    (hpre : ∀ p ∈ pre, p.studentID ≠ sid) :
    updateStudent (pre ++ [st]) sid f = pre ++ [f st] := by
  induction pre with
  | nil => simp [updateStudent, hsid]
  | cons p t ih =>
    have hp : (p.studentID == sid) = false :=
      beq_eq_false_iff_ne.mpr (hpre p (List.mem_cons_self p t))
    simp only [List.cons_append, updateStudent, hp, Bool.false_eq_true, if_false]
    show p :: updateStudent (t ++ [st]) sid f = p :: (t ++ [f st])
    rw [ih (fun q hq => hpre q (List.mem_cons_of_mem p hq))]

theorem updateCourse_append_singleton (pre : List Course) (c : Course) (code : String)
    (hcode : c.courseCode = code) (f : Course → Course)
    (hpre : ∀ d ∈ pre, d.courseCode ≠ code) :
    updateCourse (pre ++ [c]) code f = pre ++ [f c] := by
  induction pre with
  | nil => simp [updateCourse, hcode]
  | cons d t ih =>
    have hd : (d.courseCode == code) = false :=
      beq_eq_false_iff_ne.mpr (hpre d (List.mem_cons_self d t))
    simp only [List.cons_append, updateCourse, hd, Bool.false_eq_true, if_false]
    show d :: updateCourse (t ++ [c]) code f = d :: (t ++ [f c])
    rw [ih (fun q hq => hpre q (List.mem_cons_of_mem d hq))]

theorem foldl_enroll_codes (codes : List String) (pre : List Student) (n sid : String)
    (k : StudentKind) (t0 : List String) (hpre : ∀ p ∈ pre, p.studentID ≠ sid)
    (hnodup : codes.Nodup) (hdisj : ∀ code ∈ codes, code ∉ t0) :
    codes.foldl (fun l code => updateStudent l sid (fun t => t.addCourse code))
        (pre ++ [⟨n, sid, k, t0⟩])
      = pre ++ [⟨n, sid, k, t0 ++ codes⟩] := by
  induction codes generalizing t0 with
  | nil => simp
  | cons code rest ih =>
    rw [List.foldl_cons]
    have hadd : (⟨n, sid, k, t0⟩ : Student).addCourse code = ⟨n, sid, k, t0 ++ [code]⟩ :=
      Student.addCourse_of_not_mem _ code (hdisj code (List.mem_cons_self code rest))
    have hupd : updateStudent (pre ++ [⟨n, sid, k, t0⟩]) sid (fun t => t.addCourse code)
        = pre ++ [⟨n, sid, k, t0 ++ [code]⟩] := by
      rw [updateStudent_append_singleton pre _ sid rfl _ hpre, hadd]
    rw [hupd]
    have hdisj2 : ∀ c ∈ rest, c ∉ t0 ++ [code] := by
      intro c hc hmem
      rcases List.mem_append.mp hmem with hm | hm
      · exact hdisj c (List.mem_cons_of_mem code hc) hm
      · rw [List.mem_singleton] at hm
        subst hm
        exact (List.nodup_cons.mp hnodup).1 hc
    rw [ih (t0 ++ [code]) (List.nodup_cons.mp hnodup).2 hdisj2]
    simp

theorem foldl_enroll_sids (sids : List String) (pre : List Course) (n code : String)
    (r0 : List String) (hpre : ∀ d ∈ pre, d.courseCode ≠ code)
    (hnodup : sids.Nodup) (hdisj : ∀ sid ∈ sids, sid ∉ r0) :
    sids.foldl (fun l sid => updateCourse l code (fun c => c.addStudent sid))
        (pre ++ [⟨n, code, r0⟩])
      = pre ++ [⟨n, code, r0 ++ sids⟩] := by
  induction sids generalizing r0 with
  | nil => simp
  | cons sid rest ih =>
    rw [List.foldl_cons]
    have hadd : (⟨n, code, r0⟩ : Course).addStudent sid = ⟨n, code, r0 ++ [sid]⟩ :=
      Course.addStudent_of_not_mem _ sid (hdisj sid (List.mem_cons_self sid rest))
    have hupd : updateCourse (pre ++ [⟨n, code, r0⟩]) code (fun c => c.addStudent sid)
        = pre ++ [⟨n, code, r0 ++ [sid]⟩] := by
      rw [updateCourse_append_singleton pre _ code rfl _ hpre, hadd]
    rw [hupd]
    have hdisj2 : ∀ x ∈ rest, x ∉ r0 ++ [sid] := by
      intro x hx hmem
      rcases List.mem_append.mp hmem with hm | hm
      · exact hdisj x (List.mem_cons_of_mem sid hx) hm
      · rw [List.mem_singleton] at hm
        subst hm
        exact (List.nodup_cons.mp hnodup).1 hx
    rw [ih (r0 ++ [sid]) (List.nodup_cons.mp hnodup).2 hdisj2]
    simp

theorem studentLineChars_ne_nil (s : Student) : studentLineChars s ≠ [] := by
  unfold studentLineChars
  intro h
  rcases List.append_eq_nil.mp h with ⟨_, h2⟩
  exact List.cons_ne_nil _ _ h2

theorem courseLineChars_ne_nil (c : Course) : courseLineChars c ≠ [] := by
  unfold courseLineChars
  intro h
  rcases List.append_eq_nil.mp h with ⟨_, h2⟩
  exact List.cons_ne_nil _ _ h2

theorem loadStudentLine_row (m : StudentManagement) (s : Student)
    (hWF : WFStudent s) (hfresh : ∀ p ∈ m.students, p.studentID ≠ s.studentID) :
    loadStudentLine m ⟨studentLineChars s⟩ = { m with students := m.students ++ [s] } := by
  obtain ⟨hname, hid, hnodup, hfields⟩ := hWF
  have hparse : parseStudentLine ⟨studentLineChars s⟩
      = (s.studentID, s.name, s.kind.label,
         (⟨joinSemi (s.enrolledCourses.map String.data)⟩ : String)) :=
    parseStudentFields_row s hid.1 hname.1
  have hadd : (m.addStudent s.name s.studentID s.kind.label).2
      = { m with students := m.students ++ [⟨s.name, s.studentID, s.kind, []⟩] } :=
    addStudent_fresh m s.name s.studentID s.kind hfresh
  simp only [loadStudentLine, hparse]
  rw [if_neg (show ¬ ((⟨studentLineChars s⟩ : String).data = []) from studentLineChars_ne_nil s)]
  by_cases hcs : s.enrolledCourses = []
  · rw [hcs]
    rw [if_pos (show joinSemi (List.map String.data ([] : List String)) = [] from rfl), hadd]
    have hs_eta : (⟨s.name, s.studentID, s.kind, []⟩ : Student) = s := by
      cases s with
      | mk a b c d =>
        simp only at hcs
        rw [hcs]
    rw [hs_eta]
  · have hcodes : ∀ code ∈ s.enrolledCourses, delimFree code ∧ code ≠ "" := hfields
    have hmap_ne : s.enrolledCourses.map String.data ≠ [] := by
      intro h
      exact hcs (List.map_eq_nil_iff.mp h)
    have hsemi_free : ∀ l ∈ s.enrolledCourses.map String.data, ';' ∉ l := by
      intro l hl
      obtain ⟨code, hcm, rfl⟩ := List.mem_map.mp hl
      exact (hcodes code hcm).1.2.1
    have helem_ne : ∀ l ∈ s.enrolledCourses.map String.data, l ≠ [] := by
      intro l hl
      obtain ⟨code, hcm, rfl⟩ := List.mem_map.mp hl
      exact string_data_ne_nil code (hcodes code hcm).2
    have hjoin_ne : joinSemi (s.enrolledCourses.map String.data) ≠ [] :=
      joinSemi_ne_nil _ hmap_ne helem_ne
    rw [if_neg hjoin_ne]
    have hsplit : splitSemis ⟨joinSemi (s.enrolledCourses.map String.data)⟩
        = s.enrolledCourses := by
      unfold splitSemis
      rw [show (⟨joinSemi (s.enrolledCourses.map String.data)⟩ : String).data
          = joinSemi (s.enrolledCourses.map String.data) from rfl]
      rw [getlineSplit_joinSemi _ hmap_ne hsemi_free helem_ne]
      have hcomp : ((fun l => (⟨l⟩ : String)) ∘ String.data) = id := by
        funext x
        rfl
      rw [List.map_map, hcomp, List.map_id]
    rw [hsplit, hadd]
    rw [foldl_update_students s.enrolledCourses _
      (fun l code => updateStudent l s.studentID (fun t => t.addCourse code))]
    rw [foldl_enroll_codes s.enrolledCourses m.students s.name s.studentID s.kind []
      hfresh hnodup (by intro code _ hmem; cases hmem)]
    have hs_eta : (⟨s.name, s.studentID, s.kind, [] ++ s.enrolledCourses⟩ : Student) = s := by
      cases s with
      | mk a b c d => rfl
    rw [hs_eta]

theorem loadCourseLine_row (m : StudentManagement) (c : Course)
    (hWF : WFCourse c) (hfresh : ∀ d ∈ m.courses, d.courseCode ≠ c.courseCode) :
    loadCourseLine m ⟨courseLineChars c⟩ = { m with courses := m.courses ++ [c] } := by
  obtain ⟨hname, hcode, hnodup, hfields⟩ := hWF
  have hparse : parseCourseLine ⟨courseLineChars c⟩
      = (c.courseCode, c.courseName,
         (⟨joinSemi (c.enrolledStudentIDs.map String.data)⟩ : String)) :=
    parseCourseFields_row c hcode.1 hname.1
  have hadd : (m.addCourse c.courseName c.courseCode).2
      = { m with courses := m.courses ++ [⟨c.courseName, c.courseCode, []⟩] } :=
    addCourse_fresh m c.courseName c.courseCode hfresh
  simp only [loadCourseLine, hparse]
  rw [if_neg (show ¬ ((⟨courseLineChars c⟩ : String).data = []) from courseLineChars_ne_nil c)]
  by_cases hcs : c.enrolledStudentIDs = []
  · rw [hcs]
    rw [if_pos (show joinSemi (List.map String.data ([] : List String)) = [] from rfl), hadd]
    have hc_eta : (⟨c.courseName, c.courseCode, []⟩ : Course) = c := by
      cases c with
      | mk a b d =>
        simp only at hcs
        rw [hcs]
    rw [hc_eta]
  · have hsids : ∀ sid ∈ c.enrolledStudentIDs, delimFree sid ∧ sid ≠ "" := hfields
    have hmap_ne : c.enrolledStudentIDs.map String.data ≠ [] := by
      intro h
      exact hcs (List.map_eq_nil_iff.mp h)
    have hsemi_free : ∀ l ∈ c.enrolledStudentIDs.map String.data, ';' ∉ l := by
      intro l hl
      obtain ⟨sid, hsm, rfl⟩ := List.mem_map.mp hl
      exact (hsids sid hsm).1.2.1
    have helem_ne : ∀ l ∈ c.enrolledStudentIDs.map String.data, l ≠ [] := by
      intro l hl
      obtain ⟨sid, hsm, rfl⟩ := List.mem_map.mp hl
      exact string_data_ne_nil sid (hsids sid hsm).2
    have hjoin_ne : joinSemi (c.enrolledStudentIDs.map String.data) ≠ [] :=
      joinSemi_ne_nil _ hmap_ne helem_ne
    rw [if_neg hjoin_ne]
    have hsplit : splitSemis ⟨joinSemi (c.enrolledStudentIDs.map String.data)⟩
        = c.enrolledStudentIDs := by
      unfold splitSemis
      rw [show (⟨joinSemi (c.enrolledStudentIDs.map String.data)⟩ : String).data
          = joinSemi (c.enrolledStudentIDs.map String.data) from rfl]
      rw [getlineSplit_joinSemi _ hmap_ne hsemi_free helem_ne]
      have hcomp : ((fun l => (⟨l⟩ : String)) ∘ String.data) = id := by
        funext x
        rfl
      rw [List.map_map, hcomp, List.map_id]
    rw [hsplit, hadd]
    rw [foldl_update_courses c.enrolledStudentIDs _
      (fun l sid => updateCourse l c.courseCode (fun d => d.addStudent sid))]
    rw [foldl_enroll_sids c.enrolledStudentIDs m.courses c.courseName c.courseCode []
      hfresh hnodup (by intro sid _ hmem; cases hmem)]
    have hc_eta : (⟨c.courseName, c.courseCode, [] ++ c.enrolledStudentIDs⟩ : Course) = c := by
      cases c with
      | mk a b d => rfl
    rw [hc_eta]

theorem loadStudents_rows (rows : List Student) (m : StudentManagement)
    (hWF : ∀ s ∈ rows, WFStudent s)
    (hfresh : ∀ s ∈ rows, ∀ p ∈ m.students, p.studentID ≠ s.studentID)
    (hnodup : (rows.map Student.studentID).Nodup) :
    (rows.map (fun s => (⟨studentLineChars s⟩ : String))).foldl loadStudentLine m
      = { m with students := m.students ++ rows } := by
  induction rows generalizing m with
  | nil => simp
  | cons s rest ih =>
    rw [List.map_cons, List.foldl_cons,
      loadStudentLine_row m s (hWF s (List.mem_cons_self s rest))
        (hfresh s (List.mem_cons_self s rest))]
    simp only [List.map_cons, List.nodup_cons] at hnodup
    have hfresh2 : ∀ r ∈ rest,
        ∀ p ∈ ({ m with students := m.students ++ [s] } : StudentManagement).students,
        p.studentID ≠ r.studentID := by
      intro r hr p hp
      rcases List.mem_append.mp hp with hp' | hp'
      · exact hfresh r (List.mem_cons_of_mem s hr) p hp'
      · rw [List.mem_singleton] at hp'
        subst hp'
        intro hcontra
        exact hnodup.1 (hcontra ▸ List.mem_map_of_mem Student.studentID hr)
    rw [ih { m with students := m.students ++ [s] }
      (fun r hr => hWF r (List.mem_cons_of_mem s hr)) hfresh2 hnodup.2]
    simp [List.append_assoc]

theorem loadCourses_rows (rows : List Course) (m : StudentManagement)
    (hWF : ∀ c ∈ rows, WFCourse c)
    (hfresh : ∀ c ∈ rows, ∀ d ∈ m.courses, d.courseCode ≠ c.courseCode)
    (hnodup : (rows.map Course.courseCode).Nodup) :
    (rows.map (fun c => (⟨courseLineChars c⟩ : String))).foldl loadCourseLine m
      = { m with courses := m.courses ++ rows } := by
  induction rows generalizing m with
  | nil => simp
  | cons c rest ih =>
    rw [List.map_cons, List.foldl_cons,
      loadCourseLine_row m c (hWF c (List.mem_cons_self c rest))
        (hfresh c (List.mem_cons_self c rest))]
    simp only [List.map_cons, List.nodup_cons] at hnodup
    have hfresh2 : ∀ r ∈ rest,
        ∀ d ∈ ({ m with courses := m.courses ++ [c] } : StudentManagement).courses,
        d.courseCode ≠ r.courseCode := by
      intro r hr d hd
      rcases List.mem_append.mp hd with hd' | hd'
      · exact hfresh r (List.mem_cons_of_mem c hr) d hd'
      · rw [List.mem_singleton] at hd'
        subst hd'
        intro hcontra
        exact hnodup.1 (hcontra ▸ List.mem_map_of_mem Course.courseCode hr)
    rw [ih { m with courses := m.courses ++ [c] }
      (fun r hr => hWF r (List.mem_cons_of_mem c hr)) hfresh2 hnodup.2]
    simp [List.append_assoc]

theorem loadStudents_export (m₀ : StudentManagement) (hWF : WFRegistry m₀) :
    loadStudentsFromCSV emptyRegistry (some (exportStudentsToCSV m₀))
      = ⟨m₀.students, []⟩ := by
  obtain ⟨hnodupS, _, hWFs, _⟩ := hWF
  have hnolines : ∀ l ∈ ("StudentID,Name,Type,EnrolledCourses".data
      :: m₀.students.map studentLineChars), '\n' ∉ l := by
    intro l hl
    rcases List.mem_cons.mp hl with rfl | hl
    · decide
    · obtain ⟨s, hs, rfl⟩ := List.mem_map.mp hl
      obtain ⟨hname, hid, _, hfields⟩ := hWFs s hs
      exact not_mem_studentLineChars '\n' (by decide) (by decide) s hid.2.2 hname.2.2
        (by cases s.kind <;> decide) (fun code hc => (hfields code hc).1.2.2)
  have hlines : fileLines (exportStudentsToCSV m₀)
      = "StudentID,Name,Type,EnrolledCourses"
          :: m₀.students.map (fun s => (⟨studentLineChars s⟩ : String)) := by
    unfold fileLines exportStudentsToCSV
    rw [show (⟨joinLines ("StudentID,Name,Type,EnrolledCourses".data
        :: m₀.students.map studentLineChars)⟩ : String).data
      = joinLines ("StudentID,Name,Type,EnrolledCourses".data
        :: m₀.students.map studentLineChars) from rfl]
    unfold joinLines
    rw [getlineSplit_joinLines '\n' _ hnolines]
    rw [List.map_cons, List.map_map]
    rfl
  show List.foldl loadStudentLine emptyRegistry
      (List.drop 1 (fileLines (exportStudentsToCSV m₀)))
    = ({ students := m₀.students, courses := [] } : StudentManagement)
  rw [hlines]
  rw [show ("StudentID,Name,Type,EnrolledCourses"
      :: m₀.students.map (fun s => (⟨studentLineChars s⟩ : String))).drop 1
    = m₀.students.map (fun s => (⟨studentLineChars s⟩ : String)) from rfl]
  rw [loadStudents_rows m₀.students emptyRegistry hWFs
    (by intro s _ p hp; cases hp) hnodupS]
  rfl

theorem loadCourses_export (m₀ : StudentManagement) (hWF : WFRegistry m₀) :
    loadCoursesFromCSV ⟨m₀.students, []⟩ (some (exportCoursesToCSV m₀)) = m₀ := by
  obtain ⟨_, hnodupC, _, hWFc⟩ := hWF
  have hnolines : ∀ l ∈ ("CourseCode,CourseName,EnrolledStudents".data
      :: m₀.courses.map courseLineChars), '\n' ∉ l := by
    intro l hl
    rcases List.mem_cons.mp hl with rfl | hl
    · decide
    · obtain ⟨c, hc, rfl⟩ := List.mem_map.mp hl
      obtain ⟨hname, hcode, _, hfields⟩ := hWFc c hc
      exact not_mem_courseLineChars '\n' (by decide) (by decide) c hcode.2.2 hname.2.2
        (fun sid hsm => (hfields sid hsm).1.2.2)
  have hlines : fileLines (exportCoursesToCSV m₀)
      = "CourseCode,CourseName,EnrolledStudents"
          :: m₀.courses.map (fun c => (⟨courseLineChars c⟩ : String)) := by
    unfold fileLines exportCoursesToCSV
    rw [show (⟨joinLines ("CourseCode,CourseName,EnrolledStudents".data
        :: m₀.courses.map courseLineChars)⟩ : String).data
      = joinLines ("CourseCode,CourseName,EnrolledStudents".data
        :: m₀.courses.map courseLineChars) from rfl]
    unfold joinLines
    rw [getlineSplit_joinLines '\n' _ hnolines]
    rw [List.map_cons, List.map_map]
    rfl
  show List.foldl loadCourseLine ⟨m₀.students, []⟩
      (List.drop 1 (fileLines (exportCoursesToCSV m₀)))
    = m₀
  rw [hlines]
  rw [show ("CourseCode,CourseName,EnrolledStudents"
      :: m₀.courses.map (fun c => (⟨courseLineChars c⟩ : String))).drop 1
    = m₀.courses.map (fun c => (⟨courseLineChars c⟩ : String)) from rfl]
  rw [loadCourses_rows m₀.courses ⟨m₀.students, []⟩ hWFc
    (by intro c _ d hd; cases hd) hnodupC]
  rfl

/-- Loading the two files produced by saving a well-formed registry into a
fresh registry rebuilds the registry exactly. -/
theorem loadData_export (m : StudentManagement) (hWF : WFRegistry m) :
    loadData emptyRegistry (some (exportStudentsToCSV m)) (some (exportCoursesToCSV m)) = m := by
  unfold loadData
  rw [loadStudents_export m hWF, loadCourses_export m hWF]

/-! ### C2: round trip through the text codec -/

/-- A registry state whose student name contains the primary delimiter. -/
def commaNameRegistry : StudentManagement :=
  ⟨[⟨"A,B", "S001", .undergraduate, []⟩], []⟩

/-- C2 counterexample: the round trip is not lossless for every registry state.
With the student name `A,B` the exported row `S001,A,B,Undergraduate,` is
re-parsed with name `A` and type `B`, so `addStudent` rejects the row and the
loaded registry has an empty student collection: the set of student ids is not
preserved. -/
theorem roundtrip_counterexample :
    "S001" ∈ commaNameRegistry.students.map Student.studentID ∧
    (loadData emptyRegistry (some (exportStudentsToCSV commaNameRegistry))
        (some (exportCoursesToCSV commaNameRegistry))).students.map Student.studentID = [] := by
  decide

/-- C2 (amended): for registries with unique keys whose name, id and code
fields contain no delimiter characters (`,`, `;`, newline), whose reference
lists are duplicate-free and whose referenced ids/codes are nonempty, loading
the files produced by saving rebuilds the registry exactly — in particular the
student ids, course codes, enrollment pairs, and every name and kind field are
preserved. -/
theorem roundtrip_reconstructs (m : StudentManagement) (hWF : WFRegistry m) :
    loadData emptyRegistry (some (exportStudentsToCSV m)) (some (exportCoursesToCSV m)) = m ∧
    (loadData emptyRegistry (some (exportStudentsToCSV m))
        (some (exportCoursesToCSV m))).students.map Student.studentID
      = m.students.map Student.studentID ∧
    (loadData emptyRegistry (some (exportStudentsToCSV m))
        (some (exportCoursesToCSV m))).courses.map Course.courseCode
      = m.courses.map Course.courseCode := by
  refine ⟨loadData_export m hWF, ?_, ?_⟩ <;> rw [loadData_export m hWF]

/-- C2 witness: the round trip rebuilds a concrete linked registry. -/
theorem roundtrip_reconstructs_witness :
    WFRegistry sampleRegistry ∧
    loadData emptyRegistry (some (exportStudentsToCSV sampleRegistry))
        (some (exportCoursesToCSV sampleRegistry)) = sampleRegistry :=
  ⟨by decide, (roundtrip_reconstructs sampleRegistry (by decide)).1⟩

/-! ### C6: idempotent save -/

/-- C6 counterexample: save-load-save is not byte-identical for every registry
state; with a comma inside a student name the reload drops the row and the
second save omits it. -/
theorem save_load_save_counterexample :
    exportStudentsToCSV (loadData emptyRegistry (some (exportStudentsToCSV commaNameRegistry))
        (some (exportCoursesToCSV commaNameRegistry))) ≠ exportStudentsToCSV commaNameRegistry := by
  decide

/-- C6 (amended): the exports are pure projections of the registry state (the
export routines never mutate the collections), so saving twice with no
intervening mutation is byte-identical by construction; and for well-formed
registries (delimiter-free fields, unique keys, duplicate-free lists, nonempty
referenced keys), saving, loading into a fresh registry, and saving that
registry is byte-identical to the first save for both files. -/
theorem save_load_save_identical (m : StudentManagement) (hWF : WFRegistry m) :
    exportStudentsToCSV (loadData emptyRegistry (some (exportStudentsToCSV m))
        (some (exportCoursesToCSV m))) = exportStudentsToCSV m ∧
    exportCoursesToCSV (loadData emptyRegistry (some (exportStudentsToCSV m))
        (some (exportCoursesToCSV m))) = exportCoursesToCSV m := by
  rw [loadData_export m hWF]
  exact ⟨rfl, rfl⟩

/-- C6 witness: save-load-save reproduces the saved bytes for a concrete
linked registry. -/
theorem save_load_save_identical_witness :
    WFRegistry sampleRegistry ∧
    exportStudentsToCSV (loadData emptyRegistry (some (exportStudentsToCSV sampleRegistry))
        (some (exportCoursesToCSV sampleRegistry))) = exportStudentsToCSV sampleRegistry :=
  ⟨by decide, (save_load_save_identical sampleRegistry (by decide)).1⟩

/-! ### C10: load performs no cross-reference validation -/

def danglingStudentsFile : String :=
  "StudentID,Name,Type,EnrolledCourses\nS001,Alice,Undergraduate,CSE999\n"

def danglingCoursesFile : String := "CourseCode,CourseName,EnrolledStudents\n"

/-- C10: `loadStudentsFromCSV` inserts every `;`-separated course code of a
student row without checking the course collection: loading a students file
whose single row references `CSE999` together with a courses file with no rows
produces a registry whose only student's transcript holds `CSE999` while no
course with that code exists — a dangling reference, so the registry invariant
(referential symmetry plus no dangling references) fails. -/
theorem load_no_crossref_validation :
    (loadData emptyRegistry (some danglingStudentsFile) (some danglingCoursesFile)).students
      = [⟨"Alice", "S001", .undergraduate, ["CSE999"]⟩] ∧
    (loadData emptyRegistry (some danglingStudentsFile) (some danglingCoursesFile)).courses
      = [] ∧
    (∃ s ∈ (loadData emptyRegistry (some danglingStudentsFile)
        (some danglingCoursesFile)).students,
      ∃ code ∈ s.enrolledCourses,
        ∀ c ∈ (loadData emptyRegistry (some danglingStudentsFile)
            (some danglingCoursesFile)).courses, c.courseCode ≠ code) ∧
    ¬ RegInv (loadData emptyRegistry (some danglingStudentsFile) (some danglingCoursesFile)) := by
  decide
